import Mathlib

set_option maxHeartbeats 1000000

/-! Verification development for the Citations repository.

The repository consists of design documentation for a citation-extraction
engine (comment-syntax registry, citation parser, directory scanner,
documentation generator) and a VS Code extension (`src/vscode-extension/src/extension.ts`)
that shells out to the engine.  The engine itself is not present under `src/`
(only its design documents and callers are), so the engine definitions below
are modelled from the specification; the VS Code extension handlers are
translated from `extension.ts`. -/

/-! Character and line utilities used by the parser model. -/

/-- Whitespace test for the characters tolerated around citation markers. -/
def isWsChar (c : Char) : Bool := c == ' ' || c == '\t' || c == '\r'

/-- Drop leading whitespace of a line. -/
def dropWs (l : List Char) : List Char := l.dropWhile isWsChar

/-- Trim whitespace at both ends of a field value. -/
def trimEnds (l : List Char) : List Char := ((dropWs l).reverse.dropWhile isWsChar).reverse

/-- Split a character list at every occurrence of a separator character. -/
def splitOnChar (sep : Char) : List Char → List (List Char)
  | [] => [[]]
  | c :: r =>
    if c = sep then [] :: splitOnChar sep r
    else
      match splitOnChar sep r with
      | [] => [[c]]
      | h :: t => (c :: h) :: t

/-- Join lines with a separator character, the inverse of `splitOnChar`. -/
def joinLinesWith (sep : Char) : List (List Char) → List Char
  | [] => []
  | [l] => l
  | l :: ls => l ++ sep :: joinLinesWith sep ls

/-! Data model, modelled from the spec (section 3). -/

/-- Modelled from the spec: the missing engine's `CommentSyntaxDescriptor` value
(section 3): an immutable pair of an optional line-comment marker and an
optional block-comment open/close pair. -/
structure CommentSyntaxDescriptor where
  lineMarker : Option String
  blockMarkers : Option (String × String)
deriving DecidableEq

/-- Modelled from the spec: the missing engine's `CitationRecord` (section 3):
one attributed citation; any field may be empty, `lineNumber` is the 1-based
line where the citation block began. -/
structure CitationRecord where
  sourceUrl : String
  author : String
  date : String
  description : String
  filePath : String
  lineNumber : Nat
deriving DecidableEq

/-- Modelled from the spec: `FileCitations` (section 3): one file path owning
its citation records in source-line order. -/
structure FileCitations where
  filePath : String
  records : List CitationRecord
deriving DecidableEq

/-- Modelled from the spec: `ScanResult` (section 3): the aggregate sequence of
`FileCitations`, ordered by file path. -/
structure ScanResult where
  files : List FileCitations
deriving DecidableEq

/-! Comment syntax registry, modelled from the spec (section 4.1). -/

/-- C-family comment markers. -/
def slashesDescriptor : CommentSyntaxDescriptor := ⟨some ("//"), some (("/*", "*/"))⟩

/-- Script-language comment markers. -/
def hashDescriptor : CommentSyntaxDescriptor := ⟨some ("#"), none⟩

/-- Double-dash comment markers. -/
def dashDescriptor : CommentSyntaxDescriptor := ⟨some ("--"), none⟩

/-- Modelled from the spec: the missing engine's static registry mapping
normalized file extensions to comment syntax descriptors (sections 4.1 and 6). -/
def registry : List (String × CommentSyntaxDescriptor) :=
  [(".py", hashDescriptor), (".rb", hashDescriptor), (".sh", hashDescriptor),
   (".js", slashesDescriptor), (".ts", slashesDescriptor), (".c", slashesDescriptor),
   (".h", slashesDescriptor), (".cpp", slashesDescriptor), (".cs", slashesDescriptor),
   (".java", slashesDescriptor), (".go", slashesDescriptor),
   (".sql", dashDescriptor), (".hs", dashDescriptor), (".lua", dashDescriptor),
   (".html", ⟨none, some (("<!--", "-->"))⟩), (".css", ⟨none, some (("/*", "*/"))⟩)]

/-- Modelled from the spec: the default descriptor used for unrecognized
extensions (`//` line comments, section 4.1). -/
def defaultDescriptor : CommentSyntaxDescriptor := ⟨some ("//"), none⟩

/-- Lower-case a string character-wise (extension normalization). -/
def lowerStr (s : String) : String := String.mk (s.data.map Char.toLower)

/-- Modelled from the spec: the missing engine's `syntaxFor` (section 4.1):
case-insensitive lookup of the comment syntax for an extension, falling back
to the default descriptor. -/
def syntaxFor (ext : String) : CommentSyntaxDescriptor :=
  match registry.find? (fun kv => kv.1 == lowerStr ext) with
  | some kv => kv.2
  | none => defaultDescriptor

/-! Citation parser, modelled from the spec (section 4.2). -/

/-- The literal citation tag. -/
def tagChars : List Char := ("[CITATION]").data

/-- The four recognized field labels. -/
inductive CLabel where
  | source
  | author
  | date
  | descr
deriving DecidableEq

/-- Characters of each field label as written in a citation line. -/
def labelChars : CLabel → List Char
  | .source => ("Source").data
  | .author => ("Author").data
  | .date => ("Date").data
  | .descr => ("Description").data

/-- Try to read one labelled, colon-separated value; the value is trimmed. -/
def labelValue (lab : CLabel) (t : List Char) : Option (List Char) :=
  if (labelChars lab ++ [':']).isPrefixOf t then
    some (trimEnds (t.drop (labelChars lab ++ [':']).length))
  else none

/-- Parse the text after the `[CITATION]` tag into a label and value. -/
def parseFieldLine (t : List Char) : Option (CLabel × List Char) :=
  match labelValue .source t with
  | some v => some (.source, v)
  | none =>
    match labelValue .author t with
    | some v => some (.author, v)
    | none =>
      match labelValue .date t with
      | some v => some (.date, v)
      | none =>
        match labelValue .descr t with
        | some v => some (.descr, v)
        | none => none

/-- Strip a block-comment open marker at the start and close marker at the end
of an already left-trimmed line, when present. -/
def stripBlockEnds (d : CommentSyntaxDescriptor) (t : List Char) : List Char :=
  match d.blockMarkers with
  | none => t
  | some oc =>
    let t1 := if oc.1.data.isPrefixOf t then dropWs (t.drop oc.1.data.length) else t
    if oc.2.data.reverse.isPrefixOf t1.reverse then (t1.reverse.drop oc.2.data.length).reverse
    else t1

/-- Modelled from the spec: stripping "the comment prefix/wrapper defined by
`syntax`" from a line (section 4.2): the line-comment marker when the line
starts with it, otherwise any block-comment delimiters; a bare line inside a
block comment is left unchanged. -/
def stripMarker (d : CommentSyntaxDescriptor) (line : List Char) : List Char :=
  let t := dropWs line
  match d.lineMarker with
  | none => stripBlockEnds d t
  | some p => if p.data.isPrefixOf t then t.drop p.data.length else stripBlockEnds d t

/-- A line is blank when it consists of whitespace only. -/
def isBlankLine (line : List Char) : Bool := line.all isWsChar

/-- Whether a line carries the `[CITATION]` tag after comment stripping. -/
def hasTag (d : CommentSyntaxDescriptor) (line : List Char) : Bool :=
  tagChars.isPrefixOf (dropWs (stripMarker d line))

/-- Classification of one input line for the parser. -/
inductive LineKind where
  | blank
  | field (lab : CLabel) (v : List Char)
  | taggedBad
  | plain
deriving DecidableEq

/-- Modelled from the spec: line classification of the missing parser
(sections 4.2 and 7): blank lines, citation lines with a recognized label,
tagged lines with an unrecognized label (ignored, `MalformedCitationBlock`),
and all other lines. -/
def classifyLine (d : CommentSyntaxDescriptor) (line : List Char) : LineKind :=
  if isBlankLine line then .blank
  else if hasTag d line then
    match parseFieldLine (dropWs ((dropWs (stripMarker d line)).drop tagChars.length)) with
    | some lv => .field lv.1 lv.2
    | none => .taggedBad
  else .plain

/-- Whether a record carries at least one non-empty citation field. -/
def hasNonEmptyR (r : CitationRecord) : Bool :=
  !(r.sourceUrl == "") || !(r.author == "") || !(r.date == "") || !(r.description == "")

/-- Emit a record, discarding it when all of its fields are empty. -/
def emitR (r : CitationRecord) : List CitationRecord :=
  if hasNonEmptyR r then [r] else []

/-- Store a parsed field value into a record, overwriting the old value. -/
def setField (r : CitationRecord) (lab : CLabel) (v : List Char) : CitationRecord :=
  match lab with
  | .source => { r with sourceUrl := String.mk v }
  | .author => { r with author := String.mk v }
  | .date => { r with date := String.mk v }
  | .descr => { r with description := String.mk v }

/-- A fresh record opened at line `n` with all fields empty. -/
def emptyRec (n : Nat) : CitationRecord :=
  { sourceUrl := "", author := "", date := "", description := "", filePath := "", lineNumber := n }

/-- Open a new record at line `n` from its first field. -/
def startRec (n : Nat) (lab : CLabel) (v : List Char) : CitationRecord :=
  setField (emptyRec n) lab v

/-- Modelled from the spec: one step of the missing parser (section 4.2):
blank and malformed-tag lines keep the open record; a plain line closes and
emits it; a `Source` field over an open record with non-empty `sourceUrl`
starts a new record; any other field is merged, overwriting. -/
def processLine (d : CommentSyntaxDescriptor) (st : Option CitationRecord) (n : Nat)
    (line : List Char) : Option CitationRecord × List CitationRecord :=
  match classifyLine d line with
  | .blank => (st, [])
  | .taggedBad => (st, [])
  | .plain =>
    (none, match st with
           | none => []
           | some r => emitR r)
  | .field lab v =>
    match st with
    | none => (some (startRec n lab v), [])
    | some r =>
      if lab = .source ∧ r.sourceUrl ≠ "" then (some (startRec n .source v), emitR r)
      else (some (setField r lab v), [])

/-- Run the parser over a list of lines, threading the line number and the
open record, collecting emitted records in order. -/
def runLines (d : CommentSyntaxDescriptor) : Nat → Option CitationRecord → List (List Char) →
    Option CitationRecord × List CitationRecord
  | _, st, [] => (st, [])
  | n, st, line :: rest =>
    let s := processLine d st n line
    let t := runLines d (n + 1) s.1 rest
    (t.1, s.2 ++ t.2)

/-- Force-close any still-open record at end of content. -/
def flushEnd (st : Option CitationRecord) : List CitationRecord :=
  match st with
  | none => []
  | some r => emitR r

/-- Modelled from the spec: the missing parser on a list of lines. -/
def extractFromLines (d : CommentSyntaxDescriptor) (ls : List (List Char)) :
    List CitationRecord :=
  let t := runLines d 1 none ls
  t.2 ++ flushEnd t.1

/-- Modelled from the spec: the missing engine's `extractFromString`
(section 4.2): split content into lines and run the citation parser. -/
def extractFromString (content : String) (d : CommentSyntaxDescriptor) :
    List CitationRecord :=
  extractFromLines d (splitOnChar '\n' content.data)

/-! Directory scanner, modelled from the spec (section 4.3).  The filesystem
traversal is abstracted as a list of (path, optional content) pairs in
arbitrary traversal order; `none` content stands for an unreadable file,
which is skipped. -/

/-- Extension of a path: the suffix from the final dot of the final component,
or empty when there is none. -/
def extOfAux (acc : List Char) : List Char → List Char
  | [] => []
  | c :: t => if c = '.' then '.' :: acc else if c = '/' then [] else extOfAux (c :: acc) t

/-- Extension of a file path, including the leading dot. -/
def extOf (p : String) : String := String.mk (extOfAux [] p.data.reverse)

/-- Modelled from the spec: eligibility of a file (section 4.3): its extension
is in `includeExtensions`, or, when that set is empty, any
recognized-by-registry extension. -/
def eligible (exts : List String) (p : String) : Bool :=
  match exts with
  | [] => registry.any (fun kv => kv.1 == lowerStr (extOf p))
  | _ => exts.any (fun e => lowerStr e == lowerStr (extOf p))

/-- Modelled from the spec: per-file scanning (section 4.3): skip unreadable
files, parse eligible files with their registry syntax, record the relative
path on every record, and keep only files with a non-empty record list. -/
def scanEntries (fs : List (String × Option String)) (exts : List String) :
    List FileCitations :=
  fs.filterMap (fun pc =>
    match pc.2 with
    | none => none
    | some content =>
      if eligible exts pc.1 then
        let rs := (extractFromString content (syntaxFor (extOf pc.1))).map
          (fun r => { r with filePath := pc.1 })
        if rs.isEmpty then none else some { filePath := pc.1, records := rs }
      else none)

/-- Lexicographic, case-sensitive comparison of character lists by code point. -/
def charsLe : List Char → List Char → Bool
  | [], _ => true
  | _ :: _, [] => false
  | a :: as, b :: bs => if a < b then true else if b < a then false else charsLe as bs

/-- File-path comparison on `FileCitations` entries. -/
def fcLeB (a b : FileCitations) : Bool := charsLe a.filePath.data b.filePath.data

/-- Insert into a sorted list, keeping it sorted with respect to `le`. -/
def insertSortedB {α : Type} (le : α → α → Bool) (a : α) : List α → List α
  | [] => [a]
  | b :: t => if le a b then a :: b :: t else b :: insertSortedB le a t

/-- Insertion sort with a boolean comparison. -/
def sortB {α : Type} (le : α → α → Bool) : List α → List α
  | [] => []
  | a :: t => insertSortedB le a (sortB le t)

/-- Modelled from the spec: the missing engine's `extractFromDirectory`
(section 4.3): scan every readable eligible file and sort the aggregate by
file path, independent of traversal order. -/
def extractFromDirectory (fs : List (String × Option String)) (exts : List String) :
    ScanResult :=
  ⟨sortB fcLeB (scanEntries fs exts)⟩

/-! Documentation generator, modelled from the spec (section 4.4).  Each
backend is a pure function building the output character list. -/

/-- HTML entity escaping of one character (`&`, `<`, `>`, `"`). -/
def htmlEscapeChar (c : Char) : List Char :=
  if c = '&' then ("&amp;").data
  else if c = '<' then ("&lt;").data
  else if c = '>' then ("&gt;").data
  else if c = '"' then ("&quot;").data
  else [c]

/-- HTML entity escaping of a field value. -/
def htmlEscapeL (s : String) : List Char := s.data.flatMap htmlEscapeChar

/-- One HTML list item per citation; every field value is escaped. -/
def htmlRecordL (r : CitationRecord) : List Char :=
  ("<li>Source: ").data ++ htmlEscapeL r.sourceUrl ++
  (" Author: ").data ++ htmlEscapeL r.author ++
  (" Date: ").data ++ htmlEscapeL r.date ++
  (" Description: ").data ++ htmlEscapeL r.description ++ ("</li>").data

/-- One HTML section per file: heading with the file path, then the items. -/
def htmlFileL (fc : FileCitations) : List Char :=
  ("<section><h2>").data ++ htmlEscapeL fc.filePath ++ ("</h2><ul>").data ++
  (fc.records.map htmlRecordL).flatten ++ ("</ul></section>").data

/-- Modelled from the spec: the HTML backend (section 4.4): a document with
one section per file; an empty result renders a valid document with a
"no citations found" note. -/
def htmlDoc (sr : ScanResult) : List Char :=
  ("<html><head><title>Citations</title></head><body><h1>Citations</h1>").data ++
  (if sr.files.isEmpty then ("<p>No citations found</p>").data
   else (sr.files.map htmlFileL).flatten) ++
  ("</body></html>").data

/-- HTML rendering of a scan result. -/
def renderHTML (sr : ScanResult) : String := String.mk (htmlDoc sr)

/-- Hexadecimal digit characters. -/
def hexChars : List Char := ("0123456789abcdef").data

/-- Hexadecimal digit for a value below 16. -/
def hexDigitChar (n : Nat) : Char := hexChars.getD n ('0')

/-- JSON string escaping of one character: quote, backslash, and all control
characters are escaped. -/
def jsonEscapeChar (c : Char) : List Char :=
  if c = '"' then ['\\', '"']
  else if c = '\\' then ['\\', '\\']
  else if c = '\n' then ['\\', 'n']
  else if c = '\r' then ['\\', 'r']
  else if c = '\t' then ['\\', 't']
  else if c.toNat < 32 then ['\\', 'u', '0', '0', hexDigitChar (c.toNat / 16), hexDigitChar (c.toNat % 16)]
  else [c]

/-- Escaped body of a JSON string literal. -/
def jStrBodyL (s : String) : List Char := s.data.flatMap jsonEscapeChar

/-- A JSON string literal. -/
def jStrL (s : String) : List Char := '"' :: (jStrBodyL s ++ ['"'])

/-- Decimal digits of a natural number. -/
def natDigits (n : Nat) : List Char :=
  if n < 10 then [Nat.digitChar n]
  else natDigits (n / 10) ++ [Nat.digitChar (n % 10)]
termination_by n
decreasing_by omega

/-- One JSON object member `"key":value` (keys are plain literals). -/
def jMemberL (k : String) (v : List Char) : List Char := '"' :: (k.data ++ '"' :: ':' :: v)

/-- Comma-separated object members. -/
def jMembersCatL : List (List Char) → List Char
  | [] => []
  | [m] => m
  | m :: ms => m ++ ',' :: jMembersCatL ms

/-- A JSON object from its member texts. -/
def jObjL (ms : List (List Char)) : List Char := '\x7b' :: (jMembersCatL ms ++ ['\x7d'])

/-- Comma-separated array elements. -/
def jElemsCatL : List (List Char) → List Char
  | [] => []
  | [v] => v
  | v :: vs => v ++ ',' :: jElemsCatL vs

/-- A JSON array from its element texts. -/
def jArrL (vs : List (List Char)) : List Char := '[' :: (jElemsCatL vs ++ [']'])

/-- One citation record as a JSON object. -/
def jsonRecordL (r : CitationRecord) : List Char :=
  jObjL [jMemberL ("source") (jStrL r.sourceUrl), jMemberL ("author") (jStrL r.author),
         jMemberL ("date") (jStrL r.date), jMemberL ("description") (jStrL r.description),
         jMemberL ("line") (natDigits r.lineNumber)]

/-- One file entry as a JSON object with its citation array. -/
def jsonFileL (fc : FileCitations) : List Char :=
  jObjL [jMemberL ("file") (jStrL fc.filePath),
         jMemberL ("citations") (jArrL (fc.records.map jsonRecordL))]

/-- Modelled from the spec: the JSON backend (section 4.4): a single object
with a top-level array of per-file entries. -/
def jsonDocL (sr : ScanResult) : List Char :=
  jObjL [jMemberL ("files") (jArrL (sr.files.map jsonFileL))]

/-- JSON rendering of a scan result. -/
def renderJSON (sr : ScanResult) : String := String.mk (jsonDocL sr)

/-- Markdown escaping of one character (`*`, `_`, backtick, `[`, `]`). -/
def mdEscapeChar (c : Char) : List Char :=
  if c = '*' || c = '_' || c = Char.ofNat 96 || c = '[' || c = ']' then ['\\', c] else [c]

/-- Markdown escaping of a field value. -/
def mdEscapeL (s : String) : List Char := s.data.flatMap mdEscapeChar

/-- One Markdown sub-item for a field, omitted when the value is empty. -/
def mdFieldL (label : String) (v : String) : List Char :=
  if v = "" then [] else ("  - ").data ++ label.data ++ (": ").data ++ mdEscapeL v ++ ['\n']

/-- One Markdown bullet per citation. -/
def mdRecordL (r : CitationRecord) : List Char :=
  ("- Citation (line ").data ++ natDigits r.lineNumber ++ (")\n").data ++
  mdFieldL ("Source") r.sourceUrl ++ mdFieldL ("Author") r.author ++
  mdFieldL ("Date") r.date ++ mdFieldL ("Description") r.description

/-- One Markdown heading per file. -/
def mdFileL (fc : FileCitations) : List Char :=
  ("### ").data ++ mdEscapeL fc.filePath ++ ['\n'] ++ (fc.records.map mdRecordL).flatten

/-- Modelled from the spec: the Markdown backend (section 4.4). -/
def mdDoc (sr : ScanResult) : List Char :=
  ("# Citations\n").data ++
  (if sr.files.isEmpty then ("No citations found\n").data else (sr.files.map mdFileL).flatten)

/-- Markdown rendering of a scan result. -/
def renderMarkdown (sr : ScanResult) : String := String.mk (mdDoc sr)

/-- Output formats of the documentation generator. -/
inductive OutFormat where
  | markdown
  | html
  | json
deriving DecidableEq

/-- Modelled from the spec: the missing engine's `render` (section 4.4). -/
def render (sr : ScanResult) (fmt : OutFormat) : String :=
  match fmt with
  | .markdown => renderMarkdown sr
  | .html => renderHTML sr
  | .json => renderJSON sr

/-! The JSON grammar, written from the JSON specification (strings with
escapes, numbers, arrays, objects; whitespace-free texts).  Membership in
this grammar is the formal notion of "syntactically valid JSON" used below. -/

/-- Grammar of the body of a JSON string literal: plain characters (no quote,
no backslash, no control characters), two-character escapes, and `\uXXXX`
escapes. -/
inductive JStrBody : List Char → Prop where
  | nil : JStrBody []
  | plain (c : Char) (s : List Char) : c ≠ '"' → c ≠ '\\' → 32 ≤ c.toNat → JStrBody s →
      JStrBody (c :: s)
  | esc (c : Char) (s : List Char) : c ∈ ['"', '\\', '/', 'b', 'f', 'n', 'r', 't'] →
      JStrBody s → JStrBody ('\\' :: c :: s)
  | hex (a b e f : Char) (s : List Char) : a ∈ hexChars → b ∈ hexChars → e ∈ hexChars →
      f ∈ hexChars → JStrBody s → JStrBody ('\\' :: 'u' :: a :: b :: e :: f :: s)

mutual

/-- Grammar of one JSON value. -/
inductive JVal : List Char → Prop where
  | str (s : List Char) : JStrBody s → JVal ('"' :: (s ++ ['"']))
  | num (ds : List Char) : ds ≠ [] → (∀ c ∈ ds, c.isDigit = true) → JVal ds
  | arrNil : JVal ['[', ']']
  | arr (es : List Char) : JElems es → JVal ('[' :: (es ++ [']']))
  | objNil : JVal ['\x7b', '\x7d']
  | obj (ms : List Char) : JMembers ms → JVal ('\x7b' :: (ms ++ ['\x7d']))

/-- Grammar of a non-empty comma-separated list of JSON array elements. -/
inductive JElems : List Char → Prop where
  | one (v : List Char) : JVal v → JElems v
  | cons (v es : List Char) : JVal v → JElems es → JElems (v ++ ',' :: es)

/-- Grammar of a non-empty comma-separated list of JSON object members. -/
inductive JMembers : List Char → Prop where
  | one (k v : List Char) : JStrBody k → JVal v → JMembers ('"' :: (k ++ '"' :: ':' :: v))
  | cons (k v ms : List Char) : JStrBody k → JVal v → JMembers ms →
      JMembers (('"' :: (k ++ '"' :: ':' :: v)) ++ ',' :: ms)

end

/-! VS Code extension embedding, translated from
`src/vscode-extension/src/extension.ts`.  The editor API is abstracted as an
environment; a handler returns the ordered list of its observable effects
(notification messages, subprocess invocations, opened documents), or `none`
when the TypeScript would throw (indexing an empty workspace-folder array). -/

/-- Observable effects of a command handler. -/
inductive UiEvent where
  | errorMsg (s : String)
  | warnMsg (s : String)
  | infoMsg (s : String)
  | execCmd (s : String)
  | openDoc (s : String)
deriving DecidableEq

/-- Result of the `exec` callback: `procError` is `error.message` when `exec`
reported an error, and the captured standard streams. -/
structure ProcResult where
  procError : Option String
  stdout : String
  stderr : String

/-- The editor environment: open workspace folders, a file-existence oracle, a
subprocess oracle, and a file-content oracle (present to express that the
handlers never consult file contents). -/
structure VsEnv where
  workspaceFolders : Option (List String)
  fileExists : String → Bool
  runProc : String → ProcResult
  fileContents : String → String

/-- Path of the engine entry script under a workspace folder
(`path.join(workspacePath, 'src', '__main__.py')`). -/
def scriptPathOf (w : String) : String := w ++ ("/src/__main__.py")

/-- The command line of the extract-citations subprocess
(`python "${pythonScriptPath}" -d "${workspacePath}"`). -/
def extractCmdOf (w : String) : String :=
  ("python \"") ++ scriptPathOf w ++ ("\" -d \"") ++ w ++ ("\"")

/-- The fixed documentation output path
(`path.join(workspacePath, 'Documentation', 'citations.md')`). -/
def docOutPathOf (w : String) : String := w ++ ("/Documentation/citations.md")

/-- The command line of the generate-documentation subprocess
(`python "${pythonScriptPath}" -d "${workspacePath}" -o "${outputPath}"`). -/
def generateCmdOf (w : String) : String :=
  ("python \"") ++ scriptPathOf w ++ ("\" -d \"") ++ w ++ ("\" -o \"") ++ docOutPathOf w ++ ("\"")

/-- The `exec` callback of the extractCitations command (extension.ts lines
29-40): error text on failure, else a warning for stderr and the stdout text. -/
def surfaceExtract (res : ProcResult) : List UiEvent :=
  match res.procError with
  | some m => [.errorMsg (("Error extracting citations: ") ++ m)]
  | none =>
    (if res.stderr = "" then []
     else [.warnMsg (("Citations extraction warning: ") ++ res.stderr)]) ++
    [.infoMsg (("Citations extracted: ") ++ res.stdout)]

/-- The extractCitations command handler (extension.ts lines 8-41). -/
def extractCitationsHandler (env : VsEnv) : Option (List UiEvent) :=
  match env.workspaceFolders with
  | none => some [.errorMsg ("No workspace folder is open")]
  | some [] => none
  | some (w :: _) =>
    if env.fileExists (scriptPathOf w) then
      some ([.infoMsg ("Extracting Copilot citations..."), .execCmd (extractCmdOf w)] ++
        surfaceExtract (env.runProc (extractCmdOf w)))
    else
      some [.infoMsg ("Extracting Copilot citations..."),
            .errorMsg (("Python script not found: ") ++ scriptPathOf w)]

/-- The `exec` callback of the generateDocumentation command (extension.ts
lines 65-79): error text on failure, else a warning for stderr, the success
text, and opening the generated file. -/
def surfaceGenerate (out : String) (res : ProcResult) : List UiEvent :=
  match res.procError with
  | some m => [.errorMsg (("Error generating documentation: ") ++ m)]
  | none =>
    (if res.stderr = "" then []
     else [.warnMsg (("Documentation generation warning: ") ++ res.stderr)]) ++
    [.infoMsg (("Documentation generated: ") ++ out), .openDoc out]

/-- The generateDocumentation command handler (extension.ts lines 44-80). -/
def generateDocumentationHandler (env : VsEnv) : Option (List UiEvent) :=
  match env.workspaceFolders with
  | none => some [.errorMsg ("No workspace folder is open")]
  | some [] => none
  | some (w :: _) =>
    if env.fileExists (scriptPathOf w) then
      some ([.infoMsg ("Generating Copilot citations documentation..."),
             .execCmd (generateCmdOf w)] ++
        surfaceGenerate (docOutPathOf w) (env.runProc (generateCmdOf w)))
    else
      some [.infoMsg ("Generating Copilot citations documentation..."),
            .errorMsg (("Python script not found: ") ++ scriptPathOf w)]

/-! Well-formed citation blocks and their rendering into comment lines, used
to state the universally quantified parser claims. -/

/-- A citation block's four field values; an empty value stands for an
omitted field. -/
structure Block where
  src : String
  auth : String
  dt : String
  descr : String
deriving DecidableEq

/-- The labelled fields actually present in a block, `Source` first. -/
def fieldList (b : Block) : List (CLabel × String) :=
  (if b.src = "" then [] else [(.source, b.src)]) ++
  (if b.auth = "" then [] else [(.author, b.auth)]) ++
  (if b.dt = "" then [] else [(.date, b.dt)]) ++
  (if b.descr = "" then [] else [(.descr, b.descr)])

/-- One citation comment line: marker, tag, label, colon, value. -/
def renderFieldLine (p : String) (lab : CLabel) (v : String) : List Char :=
  p.data ++ (' ' :: (tagChars ++ (' ' :: (labelChars lab ++ (':' :: (' ' :: v.data))))))

/-- The comment lines of one block. -/
def blockLines (p : String) (b : Block) : List (List Char) :=
  (fieldList b).map (fun lv => renderFieldLine p lv.1 lv.2)

/-- A fixed non-citation, non-blank separator line. -/
def sepChars : List Char := ("int x = 0;").data

/-- The lines of a sequence of blocks, each block closed by a separator line. -/
def renderBlocksLines (p : String) (bs : List Block) : List (List Char) :=
  (bs.map (fun b => blockLines p b ++ [sepChars])).flatten

/-- Content containing the given well-formed citation blocks. -/
def blocksContent (p : String) (bs : List Block) : String :=
  String.mk (joinLinesWith '\n' (renderBlocksLines p bs))

/-- A field value round-trips through the parser: no surrounding whitespace
and no newline. -/
abbrev goodValue (v : String) : Prop :=
  dropWs v.data = v.data ∧ dropWs v.data.reverse = v.data.reverse ∧ '\n' ∉ v.data

/-- A usable line-comment marker: non-empty, not starting with whitespace,
and newline-free. -/
abbrev goodMarker (p : String) : Prop :=
  p.data ≠ [] ∧ isWsChar (p.data.headD ' ') = false ∧ '\n' ∉ p.data

/-- A well-formed block: every field value parses back to itself and at least
one field is non-empty. -/
abbrev BlockWF (b : Block) : Prop :=
  goodValue b.src ∧ goodValue b.auth ∧ goodValue b.dt ∧ goodValue b.descr ∧
  (b.src ≠ "" ∨ b.auth ≠ "" ∨ b.dt ≠ "" ∨ b.descr ≠ "")

/-- The citation fields of a record, the part of a record determined by its
block alone. -/
def projR (r : CitationRecord) : String × String × String × String :=
  (r.sourceUrl, r.author, r.date, r.description)

/-- The fields of a block. -/
def projB (b : Block) : String × String × String × String := (b.src, b.auth, b.dt, b.descr)

/-- The record a block parses to when its first line is line `n`. -/
def recOf (b : Block) (n : Nat) : CitationRecord :=
  { sourceUrl := b.src, author := b.auth, date := b.dt, description := b.descr,
    filePath := "", lineNumber := n }

/-- Fold a list of labelled values into a record. -/
def foldFields (fs : List (CLabel × String)) (r : CitationRecord) : CitationRecord :=
  fs.foldl (fun r lv => setField r lv.1 lv.2.data) r

/-- Numbers of files and of records per file: the structural shape of a scan
result, independent of every string field. -/
def htmlShapeCount (sr : ScanResult) : Nat :=
  if sr.files.isEmpty then 12
  else 10 + ((sr.files.map (fun fc => 6 + 2 * fc.records.length)).sum)

/-- Path ordering on scan entries as a proposition. -/
def fcLe (a b : FileCitations) : Prop := fcLeB a b = true

/-- Number of occurrences of a character in a string. -/
def countChar (c : Char) (s : String) : Nat := s.data.count c

/-! Helper lemmas: splitting and joining lines. -/

theorem splitOnChar_of_not_mem (sep : Char) (l : List Char) (h : sep ∉ l) :
    splitOnChar sep l = [l] := by
  induction l with
  | nil => rfl
  | cons c r ih =>
    have hc : ¬ c = sep := fun he => h (he ▸ List.mem_cons_self c r)
    have hr : sep ∉ r := fun hm => h (List.mem_cons_of_mem c hm)
    simp [splitOnChar, hc, ih hr]

theorem splitOnChar_append_sep (sep : Char) (l r : List Char) (h : sep ∉ l) :
    splitOnChar sep (l ++ sep :: r) = l :: splitOnChar sep r := by
  induction l with
  | nil => simp [splitOnChar]
  | cons c t ih =>
    have hc : ¬ c = sep := fun he => h (he ▸ List.mem_cons_self c t)
    have ht : sep ∉ t := fun hm => h (List.mem_cons_of_mem c hm)
    simp [splitOnChar, hc, ih ht]

theorem splitOnChar_joinLinesWith (sep : Char) :
    ∀ ls : List (List Char), ls ≠ [] → (∀ l ∈ ls, sep ∉ l) →
      splitOnChar sep (joinLinesWith sep ls) = ls := by
  intro ls
  induction ls with
  | nil => intro h; exact absurd rfl h
  | cons l ls ih =>
    intro _ hmem
    cases ls with
    | nil =>
      simpa [joinLinesWith] using splitOnChar_of_not_mem sep l (hmem l (by simp))
    | cons l' t =>
      have h1 : joinLinesWith sep (l :: l' :: t) = l ++ sep :: joinLinesWith sep (l' :: t) := rfl
      rw [h1, splitOnChar_append_sep sep l _ (hmem l (by simp))]
      rw [ih (by simp) (fun x hx => hmem x (List.mem_cons_of_mem l hx))]

theorem dropWs_cons_true {c : Char} (h : isWsChar c = true) (t : List Char) :
    dropWs (c :: t) = dropWs t := by
  simp [dropWs, List.dropWhile_cons, h]

theorem dropWs_cons_false {c : Char} (h : isWsChar c = false) (t : List Char) :
    dropWs (c :: t) = c :: t := by
  simp [dropWs, List.dropWhile_cons, h]

theorem dropWs_append_head {p : List Char} (r : List Char) (hne : p ≠ [])
    (hh : isWsChar (p.headD ' ') = false) : dropWs (p ++ r) = p ++ r := by
  cases p with
  | nil => exact absurd rfl hne
  | cons c cs =>
    have : isWsChar c = false := hh
    simp [dropWs, List.dropWhile_cons, this]

theorem isPrefixOf_self_append (a b : List Char) : a.isPrefixOf (a ++ b) = true := by
  induction a with
  | nil => simp [List.isPrefixOf]
  | cons c t ih => simp [List.isPrefixOf, ih]

theorem stripMarker_marker (d : CommentSyntaxDescriptor) (p : String) (r : List Char)
    (hm : d.lineMarker = some p) (hpne : p.data ≠ [])
    (hph : isWsChar (p.data.headD ' ') = false) :
    stripMarker d (p.data ++ r) = r := by
  have e1 : dropWs (p.data ++ r) = p.data ++ r := dropWs_append_head r hpne hph
  simp [stripMarker, hm, e1, isPrefixOf_self_append, List.drop_left]

theorem classify_renderFieldLine (d : CommentSyntaxDescriptor) (p v : String) (lab : CLabel)
    (hm : d.lineMarker = some p) (hp : goodMarker p) (hv : goodValue v) :
    classifyLine d (renderFieldLine p lab v) = .field lab v.data := by
  obtain ⟨hpne, hph, -⟩ := hp
  obtain ⟨hv1, hv2, -⟩ := hv
  have hblank : isBlankLine (renderFieldLine p lab v) = false := by
    have ha : isWsChar ' ' = true := by decide
    have hb : tagChars.all isWsChar = false := by decide
    simp [isBlankLine, renderFieldLine, List.all_append, List.all_cons, ha, hb]
  have hstrip : stripMarker d (renderFieldLine p lab v) =
      ' ' :: (tagChars ++ (' ' :: (labelChars lab ++ (':' :: (' ' :: v.data))))) :=
    stripMarker_marker d p _ hm hpne hph
  have hd1 : dropWs (stripMarker d (renderFieldLine p lab v)) =
      tagChars ++ (' ' :: (labelChars lab ++ (':' :: (' ' :: v.data)))) := by
    rw [hstrip, dropWs_cons_true (by decide)]
    exact dropWs_append_head _ (by decide) (by decide)
  have htg : hasTag d (renderFieldLine p lab v) = true := by
    rw [hasTag, hd1]; exact isPrefixOf_self_append _ _
  have hafter : dropWs ((dropWs (stripMarker d (renderFieldLine p lab v))).drop tagChars.length) =
      labelChars lab ++ (':' :: (' ' :: v.data)) := by
    rw [hd1, List.drop_left, dropWs_cons_true (by decide)]
    apply dropWs_append_head
    · cases lab <;> decide
    · cases lab <;> decide
  have ht : trimEnds (' ' :: v.data) = v.data := by
    rw [trimEnds, dropWs_cons_true (by decide), hv1]
    rw [show List.dropWhile isWsChar v.data.reverse = v.data.reverse from hv2]
    exact List.reverse_reverse _
  have hparse : parseFieldLine (labelChars lab ++ (':' :: (' ' :: v.data))) =
      some (lab, v.data) := by
    cases lab <;> simp [parseFieldLine, labelValue, labelChars, List.isPrefixOf, ht]
  rw [classifyLine, hblank, htg, hafter, hparse]
  simp

theorem stripBlockEnds_subset (d : CommentSyntaxDescriptor) (t : List Char) :
    stripBlockEnds d t ⊆ t := by
  rw [stripBlockEnds]
  match d.blockMarkers with
  | none => exact fun x hx => hx
  | some oc =>
    intro x hx
    simp only [] at hx
    have hsub1 : ∀ u : List Char,
        (if oc.1.data.isPrefixOf u then dropWs (u.drop oc.1.data.length) else u) ⊆ u := by
      intro u y hy
      by_cases h : oc.1.data.isPrefixOf u
      · simp only [h, if_pos] at hy
        exact List.drop_subset _ u ((List.dropWhile_sublist _).subset hy)
      · simpa [h] using hy
    set t1 := if oc.1.data.isPrefixOf t then dropWs (t.drop oc.1.data.length) else t with ht1
    by_cases h2 : oc.2.data.reverse.isPrefixOf t1.reverse
    · simp only [h2, if_pos] at hx
      apply hsub1 t
      rw [← ht1]
      have h3 : x ∈ t1.reverse.drop oc.2.data.length := List.mem_reverse.mp hx
      exact List.mem_reverse.mp (List.drop_subset _ _ h3)
    · simp only [h2, if_neg, not_false_iff] at hx
      exact hsub1 t (ht1 ▸ hx)

theorem stripMarker_subset (d : CommentSyntaxDescriptor) (line : List Char) :
    stripMarker d line ⊆ line := by
  have hws : dropWs line ⊆ line := (List.dropWhile_sublist _).subset
  rw [stripMarker]
  match d.lineMarker with
  | none => exact fun x hx => hws (stripBlockEnds_subset d _ hx)
  | some p =>
    intro x hx
    by_cases h : p.data.isPrefixOf (dropWs line)
    · simp only [h, if_pos] at hx
      exact hws (List.drop_subset _ _ hx)
    · simp only [h, if_neg, not_false_iff] at hx
      exact hws (stripBlockEnds_subset d _ hx)

theorem classify_plain (d : CommentSyntaxDescriptor) (line : List Char)
    (hnb : isBlankLine line = false) (hnt : '[' ∉ line) :
    classifyLine d line = .plain := by
  have htg : hasTag d line = false := by
    by_contra h
    have h' : tagChars.isPrefixOf (dropWs (stripMarker d line)) = true := by
      simpa [hasTag] using h
    have hpre := List.isPrefixOf_iff_prefix.mp h'
    obtain ⟨rest, hrest⟩ := hpre
    have : '[' ∈ dropWs (stripMarker d line) := by
      rw [← hrest]
      exact List.mem_append_left rest (by decide)
    have : '[' ∈ line := stripMarker_subset d line ((List.dropWhile_sublist _).subset this)
    exact hnt this
  rw [classifyLine, hnb, htg]
  simp

@[simp] theorem mk_data (s : String) : String.mk s.data = s := rfl

theorem runLines_append (d : CommentSyntaxDescriptor) (xs ys : List (List Char)) :
    ∀ (n : Nat) (st : Option CitationRecord),
      runLines d n st (xs ++ ys) =
        ((runLines d (n + xs.length) (runLines d n st xs).1 ys).1,
         (runLines d n st xs).2 ++ (runLines d (n + xs.length) (runLines d n st xs).1 ys).2) := by
  induction xs with
  | nil => intro n st; simp [runLines]
  | cons l t ih =>
    intro n st
    simp only [List.cons_append, runLines, List.append_eq, List.length_cons]
    rw [ih]
    rw [show n + (t.length + 1) = n + 1 + t.length by omega]
    simp [List.append_assoc]

theorem processLine_field_none (d : CommentSyntaxDescriptor) (n : Nat) (line : List Char)
    (lab : CLabel) (v : List Char) (h : classifyLine d line = .field lab v) :
    processLine d none n line = (some (startRec n lab v), []) := by
  simp [processLine, h]

theorem processLine_field_merge (d : CommentSyntaxDescriptor) (r : CitationRecord) (n : Nat)
    (line : List Char) (lab : CLabel) (v : List Char) (h : classifyLine d line = .field lab v)
    (hns : ¬(lab = .source ∧ r.sourceUrl ≠ "")) :
    processLine d (some r) n line = (some (setField r lab v), []) := by
  simp [processLine, h, hns]

theorem processLine_field_split (d : CommentSyntaxDescriptor) (r : CitationRecord) (n : Nat)
    (line : List Char) (v : List Char) (h : classifyLine d line = .field .source v)
    (hne : r.sourceUrl ≠ "") :
    processLine d (some r) n line = (some (startRec n .source v), emitR r) := by
  simp [processLine, h, hne]

theorem processLine_plain_some (d : CommentSyntaxDescriptor) (r : CitationRecord) (n : Nat)
    (line : List Char) (h : classifyLine d line = .plain) :
    processLine d (some r) n line = (none, emitR r) := by
  simp [processLine, h]

theorem processLine_plain_none (d : CommentSyntaxDescriptor) (n : Nat) (line : List Char)
    (h : classifyLine d line = .plain) :
    processLine d none n line = (none, []) := by
  simp [processLine, h]

theorem hasNonEmptyR_recOf (b : Block) (n : Nat) (hwf : BlockWF b) :
    hasNonEmptyR (recOf b n) = true := by
  obtain ⟨-, -, -, -, hne⟩ := hwf
  rcases hne with h | h | h | h <;> simp [hasNonEmptyR, recOf, h]

theorem sep_not_blank : isBlankLine sepChars = false := by decide

theorem sep_no_bracket : '[' ∉ sepChars := by decide

theorem runLines_block (d : CommentSyntaxDescriptor) (p : String) (b : Block) (n : Nat)
    (hm : d.lineMarker = some p) (hp : goodMarker p) (hwf : BlockWF b) :
    runLines d n none (blockLines p b) = (some (recOf b n), []) := by
  obtain ⟨g1, g2, g3, g4, hne⟩ := hwf
  have cs := classify_renderFieldLine d p b.src .source hm hp g1
  have ca := classify_renderFieldLine d p b.auth .author hm hp g2
  have cd := classify_renderFieldLine d p b.dt .date hm hp g3
  have ce := classify_renderFieldLine d p b.descr .descr hm hp g4
  by_cases h1 : b.src = "" <;> by_cases h2 : b.auth = "" <;>
    by_cases h3 : b.dt = "" <;> by_cases h4 : b.descr = ""
  all_goals try (exfalso; revert hne; simp [h1, h2, h3, h4]; done)
  all_goals
    simp [blockLines, fieldList, h1, h2, h3, h4, runLines, processLine, cs, ca, cd, ce,
      startRec, setField, emptyRec, recOf]

theorem mem_opt_singleton {α : Type} {c : Prop} [Decidable c] {x lv : α}
    (h : lv ∈ (if c then ([] : List α) else [x])) : lv = x := by
  split at h
  · simp at h
  · simpa using h

theorem fieldList_cases (b : Block) (lv : CLabel × String) (h : lv ∈ fieldList b) :
    lv = (.source, b.src) ∨ lv = (.author, b.auth) ∨ lv = (.date, b.dt) ∨
      lv = (.descr, b.descr) := by
  rw [fieldList] at h
  rcases List.mem_append.mp h with h' | h4
  · rcases List.mem_append.mp h' with h'' | h3
    · rcases List.mem_append.mp h'' with h1 | h2
      · exact Or.inl (mem_opt_singleton h1)
      · exact Or.inr (Or.inl (mem_opt_singleton h2))
    · exact Or.inr (Or.inr (Or.inl (mem_opt_singleton h3)))
  · exact Or.inr (Or.inr (Or.inr (mem_opt_singleton h4)))

theorem no_newline_renderFieldLine (p v : String) (lab : CLabel)
    (hpn : '\n' ∉ p.data) (hvn : '\n' ∉ v.data) : '\n' ∉ renderFieldLine p lab v := by
  intro h
  have t1 : '\n' ∉ tagChars := by decide
  have t2 : '\n' ∉ labelChars lab := by cases lab <;> decide
  simp [renderFieldLine, List.mem_append, List.mem_cons, hpn, hvn, t1, t2] at h

theorem renderBlocksLines_no_newline (p : String) (bs : List Block) (hp : goodMarker p)
    (hwf : ∀ b ∈ bs, BlockWF b) : ∀ l ∈ renderBlocksLines p bs, '\n' ∉ l := by
  intro l hl
  rw [renderBlocksLines] at hl
  rcases List.mem_flatten.mp hl with ⟨chunk, hchunk, hlchunk⟩
  rcases List.mem_map.mp hchunk with ⟨b, hb, rfl⟩
  rcases List.mem_append.mp hlchunk with hbl | hsep
  · rw [blockLines] at hbl
    rcases List.mem_map.mp hbl with ⟨lv, hlv, rfl⟩
    obtain ⟨g1, g2, g3, g4, -⟩ := hwf b hb
    rcases fieldList_cases b lv hlv with rfl | rfl | rfl | rfl
    · exact no_newline_renderFieldLine p b.src _ hp.2.2 g1.2.2
    · exact no_newline_renderFieldLine p b.auth _ hp.2.2 g2.2.2
    · exact no_newline_renderFieldLine p b.dt _ hp.2.2 g3.2.2
    · exact no_newline_renderFieldLine p b.descr _ hp.2.2 g4.2.2
  · have : l = sepChars := by simpa using hsep
    subst this
    decide

theorem runLines_blocks (d : CommentSyntaxDescriptor) (p : String)
    (hm : d.lineMarker = some p) (hp : goodMarker p) :
    ∀ (bs : List Block) (n : Nat), (∀ b ∈ bs, BlockWF b) →
      (runLines d n none (renderBlocksLines p bs)).1 = none ∧
      (runLines d n none (renderBlocksLines p bs)).2.map projR = bs.map projB := by
  intro bs
  induction bs with
  | nil => intro n _; simp [renderBlocksLines, runLines]
  | cons b t ih =>
    intro n hwf
    have hb := runLines_block d p b n hm hp (hwf b (by simp))
    have hsep : classifyLine d sepChars = .plain :=
      classify_plain d sepChars sep_not_blank sep_no_bracket
    have hstep : ∀ m, processLine d (some (recOf b n)) m sepChars = (none, [recOf b n]) := by
      intro m
      rw [processLine_plain_some d _ _ _ hsep]
      simp [emitR, hasNonEmptyR_recOf b n (hwf b (by simp))]
    have hlines : renderBlocksLines p (b :: t) =
        blockLines p b ++ ([sepChars] ++ renderBlocksLines p t) := by
      simp [renderBlocksLines]
    obtain ⟨ih1, ih2⟩ := ih (n + (blockLines p b).length + 1) (fun x hx => hwf x (by simp [hx]))
    have key : runLines d n none (renderBlocksLines p (b :: t)) =
        ((runLines d (n + (blockLines p b).length + 1) none (renderBlocksLines p t)).1,
         [recOf b n] ++
           (runLines d (n + (blockLines p b).length + 1) none (renderBlocksLines p t)).2) := by
      rw [hlines, runLines_append, hb]
      have e : ([sepChars] ++ renderBlocksLines p t) = sepChars :: renderBlocksLines p t := rfl
      rw [e]
      simp [runLines, hstep]
    rw [key]
    refine ⟨ih1, ?_⟩
    simp [ih2, projR, recOf, projB]

theorem renderBlocksLines_ne_nil (p : String) (b : Block) (t : List Block) :
    renderBlocksLines p (b :: t) ≠ [] := by
  intro h
  simp [renderBlocksLines] at h

theorem extract_blocks_core (d : CommentSyntaxDescriptor) (p : String) (bs : List Block)
    (hm : d.lineMarker = some p) (hp : goodMarker p) (hwf : ∀ b ∈ bs, BlockWF b) :
    (extractFromString (blocksContent p bs) d).map projR = bs.map projB := by
  cases bs with
  | nil =>
    have hb : isBlankLine [] = true := by decide
    simp [blocksContent, renderBlocksLines, joinLinesWith, extractFromString, splitOnChar,
      extractFromLines, runLines, processLine, classifyLine, hb, flushEnd]
  | cons b t =>
    have hsplit : splitOnChar '\n' ((blocksContent p (b :: t)).data) =
        renderBlocksLines p (b :: t) := by
      rw [blocksContent]
      exact splitOnChar_joinLinesWith '\n' _ (renderBlocksLines_ne_nil p b t)
        (renderBlocksLines_no_newline p (b :: t) hp hwf)
    obtain ⟨h1, h2⟩ := runLines_blocks d p hm hp (b :: t) 1 hwf
    rw [extractFromString, hsplit, extractFromLines]
    simp [h1, flushEnd, h2]

theorem mem_emitR (r x : CitationRecord) (h : x ∈ emitR r) : hasNonEmptyR x = true := by
  rw [emitR] at h
  split at h
  · next he => rw [List.mem_singleton.mp h]; exact he
  · simp at h

theorem processLine_out_nonempty (d : CommentSyntaxDescriptor) (st : Option CitationRecord)
    (n : Nat) (line : List Char) (x : CitationRecord)
    (h : x ∈ (processLine d st n line).2) : hasNonEmptyR x = true := by
  cases hc : classifyLine d line with
  | blank => simp [processLine, hc] at h
  | taggedBad => simp [processLine, hc] at h
  | plain =>
    cases st with
    | none => simp [processLine, hc] at h
    | some r =>
      have h' : x ∈ emitR r := by simpa [processLine, hc] using h
      exact mem_emitR r x h'
  | field lab v =>
    cases st with
    | none => simp [processLine, hc] at h
    | some r =>
      by_cases hs : lab = .source ∧ r.sourceUrl ≠ ""
      · have h' : x ∈ emitR r := by simpa [processLine, hc, hs] using h
        exact mem_emitR r x h'
      · simp [processLine, hc, hs] at h

theorem runLines_out_nonempty (d : CommentSyntaxDescriptor) :
    ∀ (ls : List (List Char)) (n : Nat) (st : Option CitationRecord) (x : CitationRecord),
      x ∈ (runLines d n st ls).2 → hasNonEmptyR x = true := by
  intro ls
  induction ls with
  | nil => intro n st x h; simp [runLines] at h
  | cons l t ih =>
    intro n st x h
    rw [runLines] at h
    rcases List.mem_append.mp h with h' | h'
    · exact processLine_out_nonempty d st n l x h'
    · exact ih (n + 1) _ x h'

theorem extract_records_nonempty (d : CommentSyntaxDescriptor) (content : String)
    (x : CitationRecord) (h : x ∈ extractFromString content d) : hasNonEmptyR x = true := by
  rw [extractFromString, extractFromLines] at h
  rcases List.mem_append.mp h with h' | h'
  · exact runLines_out_nonempty d _ 1 none x h'
  · cases hst : (runLines d 1 none (splitOnChar '\n' content.data)).1 with
    | none => simp [flushEnd, hst] at h'
    | some r =>
      rw [hst] at h'
      exact mem_emitR r x (by simpa [flushEnd] using h')

theorem extract_single_block (d : CommentSyntaxDescriptor) (p : String) (b : Block)
    (hm : d.lineMarker = some p) (hp : goodMarker p) (hwf : BlockWF b) :
    extractFromString (blocksContent p [b]) d = [recOf b 1] := by
  have hsplit := splitOnChar_joinLinesWith '\n' _ (renderBlocksLines_ne_nil p b [])
    (renderBlocksLines_no_newline p [b] hp (by simpa using hwf))
  rw [extractFromString, blocksContent]
  rw [show (String.mk (joinLinesWith '\n' (renderBlocksLines p [b]))).data =
    joinLinesWith '\n' (renderBlocksLines p [b]) from rfl]
  rw [hsplit]
  have hl : renderBlocksLines p [b] = blockLines p b ++ [sepChars] := by
    simp [renderBlocksLines]
  rw [hl, extractFromLines, runLines_append, runLines_block d p b 1 hm hp hwf]
  have hsep : classifyLine d sepChars = .plain :=
    classify_plain d sepChars sep_not_blank sep_no_bracket
  simp [runLines, processLine_plain_some d _ _ _ hsep, emitR,
    hasNonEmptyR_recOf b 1 hwf, flushEnd]

theorem hasNonEmptyR_false_iff (r : CitationRecord) :
    hasNonEmptyR r = false ↔
      r.sourceUrl = "" ∧ r.author = "" ∧ r.date = "" ∧ r.description = "" := by
  simp [hasNonEmptyR]
  tauto

theorem setField_empty_keeps (r : CitationRecord) (lab : CLabel)
    (h : hasNonEmptyR r = false) : hasNonEmptyR (setField r lab []) = false := by
  rw [hasNonEmptyR_false_iff] at h ⊢
  obtain ⟨h1, h2, h3, h4⟩ := h
  cases lab <;> simp [setField, h1, h2, h3, h4]

theorem startRec_empty (n : Nat) (lab : CLabel) :
    hasNonEmptyR (startRec n lab []) = false := by
  cases lab <;> simp [startRec, setField, emptyRec, hasNonEmptyR]

theorem goodValue_empty : goodValue ("") := by
  refine ⟨rfl, rfl, ?_⟩
  simp [String.data]

theorem extract_all_empty (d : CommentSyntaxDescriptor) (p : String)
    (hm : d.lineMarker = some p) (hp : goodMarker p) (labs : List CLabel) :
    extractFromLines d (labs.map (fun lab => renderFieldLine p lab (""))) = [] := by
  have key : ∀ (labs' : List CLabel) (n : Nat) (st : Option CitationRecord),
      (st = none ∨ ∃ r, st = some r ∧ hasNonEmptyR r = false) →
      (runLines d n st (labs'.map (fun lab => renderFieldLine p lab ("")))).2 = [] ∧
      ((runLines d n st (labs'.map (fun lab => renderFieldLine p lab ("")))).1 = none ∨
       ∃ r, (runLines d n st (labs'.map (fun lab => renderFieldLine p lab ("")))).1 = some r ∧
         hasNonEmptyR r = false) := by
    intro labs'
    induction labs' with
    | nil => intro n st hst; simpa [runLines] using hst
    | cons lab t ih =>
      intro n st hst
      have hc := classify_renderFieldLine d p ("") lab hm hp goodValue_empty
      rcases hst with rfl | ⟨r, rfl, hr⟩
      · have hstep : processLine d none n (renderFieldLine p lab ("")) =
            (some (startRec n lab []), []) := by
          have : ("" : String).data = [] := rfl
          rw [processLine_field_none d n _ lab _ hc, this]
        rw [List.map_cons, runLines, hstep]
        simpa using ih (n + 1) _ (Or.inr ⟨_, rfl, startRec_empty n lab⟩)
      · have hs : ¬(lab = .source ∧ r.sourceUrl ≠ "") := by
          rw [hasNonEmptyR_false_iff] at hr
          rintro ⟨-, hne⟩
          exact hne hr.1
        have hstep : processLine d (some r) n (renderFieldLine p lab ("")) =
            (some (setField r lab []), []) := by
          have : ("" : String).data = [] := rfl
          rw [processLine_field_merge d r n _ lab _ hc hs, this]
        rw [List.map_cons, runLines, hstep]
        simpa using ih (n + 1) _ (Or.inr ⟨_, rfl, setField_empty_keeps r lab hr⟩)
  obtain ⟨h2, h1⟩ := key labs 1 none (Or.inl rfl)
  rw [extractFromLines]
  rcases h1 with h1 | ⟨r, h1, hr⟩
  · simp [h2, h1, flushEnd]
  · simp [h2, h1, flushEnd, emitR, hr]

theorem extract_append_closer (d : CommentSyntaxDescriptor) (ls : List (List Char))
    (line : List Char) (hnb : isBlankLine line = false) (hnt : hasTag d line = false) :
    extractFromLines d (ls ++ [line]) = extractFromLines d ls := by
  have hplain : classifyLine d line = .plain := by
    rw [classifyLine, hnb, hnt]
    simp
  rw [extractFromLines, extractFromLines, runLines_append]
  cases hst : (runLines d 1 none ls).1 with
  | none =>
    simp [runLines, processLine_plain_none d _ _ hplain, flushEnd]
  | some r =>
    simp [runLines, processLine_plain_some d _ _ _ hplain, flushEnd]


/-- C1: for every content containing N well-formed citation blocks in a
supported comment syntax, `extractFromString` returns exactly N citation
records, in the order the blocks appear in the source text. -/
theorem citations_C1 (d : CommentSyntaxDescriptor) (p : String) (bs : List Block)
    (hm : d.lineMarker = some p) (hp : goodMarker p) (hwf : ∀ b ∈ bs, BlockWF b) :
    (extractFromString (blocksContent p bs) d).length = bs.length ∧
    (extractFromString (blocksContent p bs) d).map projR = bs.map projB := by
  have h := extract_blocks_core d p bs hm hp hwf
  refine ⟨?_, h⟩
  have h2 := congrArg List.length h
  simpa using h2

/-- Witness for C1: two blocks extract to exactly two records, in order. -/
theorem citations_C1_witness :
    ((⟨some ("//"), none⟩ : CommentSyntaxDescriptor).lineMarker = some ("//")) ∧
    goodMarker ("//") ∧
    (∀ b ∈ [(⟨"u", "a", "d", "e"⟩ : Block), ⟨"", "bb", "", ""⟩], BlockWF b) ∧
    ((extractFromString (blocksContent ("//") [⟨"u", "a", "d", "e"⟩, ⟨"", "bb", "", ""⟩])
        (⟨some ("//"), none⟩ : CommentSyntaxDescriptor)).length = 2 ∧
      (extractFromString (blocksContent ("//") [⟨"u", "a", "d", "e"⟩, ⟨"", "bb", "", ""⟩])
        (⟨some ("//"), none⟩ : CommentSyntaxDescriptor)).map projR =
        ([⟨"u", "a", "d", "e"⟩, ⟨"", "bb", "", ""⟩] : List Block).map projB) :=
  ⟨rfl, by decide, by decide,
    citations_C1 ⟨some ("//"), none⟩ ("//") [⟨"u", "a", "d", "e"⟩, ⟨"", "bb", "", ""⟩]
      rfl (by decide) (by decide)⟩

/-- C4: a `Source` citation line over an open record with non-empty
`sourceUrl` closes that record (emitting it) and starts a new one; any other
label merges into the open record; a later value for the same label
overwrites the earlier one. -/
theorem citations_C4 :
    (∀ (d : CommentSyntaxDescriptor) (r : CitationRecord) (n : Nat) (line v : List Char),
      classifyLine d line = .field .source v → r.sourceUrl ≠ "" →
      processLine d (some r) n line = (some (startRec n .source v), [r])) ∧
    (∀ (d : CommentSyntaxDescriptor) (r : CitationRecord) (n : Nat) (line : List Char)
      (lab : CLabel) (v : List Char),
      classifyLine d line = .field lab v → lab ≠ .source →
      processLine d (some r) n line = (some (setField r lab v), [])) ∧
    (∀ (r : CitationRecord) (lab : CLabel) (v₁ v₂ : List Char),
      setField (setField r lab v₁) lab v₂ = setField r lab v₂) := by
  refine ⟨?_, ?_, ?_⟩
  · intro d r n line v hc hne
    rw [processLine_field_split d r n line v hc hne]
    have he : hasNonEmptyR r = true := by simp [hasNonEmptyR, hne]
    rw [emitR, he]
    simp
  · intro d r n line lab v hc hlab
    exact processLine_field_merge d r n line lab v hc (by rintro ⟨h1, -⟩; exact hlab h1)
  · intro r lab v₁ v₂
    cases lab <;> rfl

/-- Witness for C4: a concrete `Source` line splitting a concrete open record. -/
theorem citations_C4_witness :
    (classifyLine defaultDescriptor (("// [CITATION] Source: w").data) =
      .field .source (("w").data)) ∧
    (({ sourceUrl := "u", author := "", date := "", description := "", filePath := "",
        lineNumber := 1 } : CitationRecord).sourceUrl ≠ "") ∧
    processLine defaultDescriptor
        (some { sourceUrl := "u", author := "", date := "", description := "", filePath := "",
                lineNumber := 1 }) 5 (("// [CITATION] Source: w").data) =
      (some (startRec 5 .source (("w").data)),
       [{ sourceUrl := "u", author := "", date := "", description := "", filePath := "",
          lineNumber := 1 }]) :=
  ⟨by decide, by decide,
    citations_C4.1 defaultDescriptor _ 5 _ _ (by decide) (by decide)⟩

/-- C5: every emitted record has at least one non-empty field; a block with a
missing field still yields one record with that field empty; a block whose
labelled values are all empty yields nothing. -/
theorem citations_C5 :
    (∀ (d : CommentSyntaxDescriptor) (content : String) (r : CitationRecord),
        r ∈ extractFromString content d → hasNonEmptyR r = true) ∧
    (∀ (d : CommentSyntaxDescriptor) (p : String) (b : Block),
        d.lineMarker = some p → goodMarker p → BlockWF b →
        extractFromString (blocksContent p [b]) d = [recOf b 1]) ∧
    (∀ (d : CommentSyntaxDescriptor) (p : String) (labs : List CLabel),
        d.lineMarker = some p → goodMarker p →
        extractFromLines d (labs.map (fun lab => renderFieldLine p lab (""))) = []) := by
  refine ⟨?_, ?_, ?_⟩
  · intro d content r h
    exact extract_records_nonempty d content r h
  · intro d p b hm hp hwf
    exact extract_single_block d p b hm hp hwf
  · intro d p labs hm hp
    exact extract_all_empty d p hm hp labs

/-- Witness for C5: an author-only block yields one record with the other
fields empty. -/
theorem citations_C5_witness :
    (defaultDescriptor.lineMarker = some ("//")) ∧ goodMarker ("//") ∧
    BlockWF (⟨"", "alice", "", ""⟩ : Block) ∧
    extractFromString (blocksContent ("//") [⟨"", "alice", "", ""⟩]) defaultDescriptor =
      [recOf ⟨"", "alice", "", ""⟩ 1] :=
  ⟨rfl, by decide, by decide,
    citations_C5.2.1 defaultDescriptor ("//") ⟨"", "alice", "", ""⟩ rfl (by decide) (by decide)⟩

/-- C6: a blank line never closes the open record; a non-blank line without
the citation tag closes and emits it (subject to the discard rule); and
appending an explicit closing line at end of content changes nothing, because
end of content already force-closes the open record. -/
theorem citations_C6 :
    (∀ (d : CommentSyntaxDescriptor) (st : Option CitationRecord) (n : Nat)
        (line : List Char), isBlankLine line = true → processLine d st n line = (st, [])) ∧
    (∀ (d : CommentSyntaxDescriptor) (r : CitationRecord) (n : Nat) (line : List Char),
        isBlankLine line = false → hasTag d line = false →
        processLine d (some r) n line = (none, emitR r)) ∧
    (∀ (d : CommentSyntaxDescriptor) (ls : List (List Char)) (line : List Char),
        isBlankLine line = false → hasTag d line = false →
        extractFromLines d (ls ++ [line]) = extractFromLines d ls) := by
  refine ⟨?_, ?_, ?_⟩
  · intro d st n line hb
    have hc : classifyLine d line = .blank := by simp [classifyLine, hb]
    simp [processLine, hc]
  · intro d r n line hb ht
    have hc : classifyLine d line = .plain := by simp [classifyLine, hb, ht]
    exact processLine_plain_some d r n line hc
  · intro d ls line hb ht
    exact extract_append_closer d ls line hb ht

/-- Witness for C6: a blank line keeps a concrete record open, and an
appended closer line leaves a concrete extraction unchanged. -/
theorem citations_C6_witness :
    (isBlankLine (("   ").data) = true) ∧
    processLine defaultDescriptor (some (recOf ⟨"u", "", "", ""⟩ 1)) 2 (("   ").data) =
      (some (recOf ⟨"u", "", "", ""⟩ 1), []) ∧
    (isBlankLine (("end").data) = false) ∧ (hasTag defaultDescriptor (("end").data) = false) ∧
    extractFromLines defaultDescriptor ([("// [CITATION] Source: u").data] ++ [("end").data]) =
      extractFromLines defaultDescriptor [("// [CITATION] Source: u").data] :=
  ⟨by decide,
   citations_C6.1 defaultDescriptor (some (recOf ⟨"u", "", "", ""⟩ 1)) 2 _ (by decide),
   by decide, by decide,
   citations_C6.2.2 defaultDescriptor [("// [CITATION] Source: u").data] (("end").data)
     (by decide) (by decide)⟩

/-- C7: `syntaxFor` is total and pure, lookup is case-insensitive on the
extension, unknown extensions resolve to the default `//` descriptor, and
`//`-style citation comments are still extracted for unknown extensions. -/
theorem citations_C7 :
    (∀ e₁ e₂ : String, lowerStr e₁ = lowerStr e₂ → syntaxFor e₁ = syntaxFor e₂) ∧
    (∀ ext : String, (∀ kv ∈ registry, kv.1 ≠ lowerStr ext) →
        syntaxFor ext = defaultDescriptor) ∧
    defaultDescriptor.lineMarker = some ("//") ∧
    (∀ (ext : String) (bs : List Block), (∀ kv ∈ registry, kv.1 ≠ lowerStr ext) →
        (∀ b ∈ bs, BlockWF b) →
        (extractFromString (blocksContent ("//") bs) (syntaxFor ext)).map projR =
          bs.map projB) := by
  have hnone : ∀ ext : String, (∀ kv ∈ registry, kv.1 ≠ lowerStr ext) →
      syntaxFor ext = defaultDescriptor := by
    intro ext h
    rw [syntaxFor]
    have hf : registry.find? (fun kv => kv.1 == lowerStr ext) = none := by
      rw [List.find?_eq_none]
      intro x hx
      simp [h x hx]
    rw [hf]
  refine ⟨?_, hnone, rfl, ?_⟩
  · intro e1 e2 h
    rw [syntaxFor, syntaxFor, h]
  · intro ext bs hun hwf
    rw [hnone ext hun]
    exact extract_blocks_core defaultDescriptor ("//") bs rfl (by decide) hwf

/-- Witness for C7: `.PY` and `.py` resolve identically; the unknown `.xyz`
resolves to the default descriptor. -/
theorem citations_C7_witness :
    (lowerStr (".PY") = lowerStr (".py")) ∧
    (∀ kv ∈ registry, kv.1 ≠ lowerStr (".xyz")) ∧
    (syntaxFor (".PY") = syntaxFor (".py")) ∧
    (syntaxFor (".xyz") = defaultDescriptor) :=
  ⟨by decide, by decide,
   citations_C7.1 (".PY") (".py") (by decide),
   citations_C7.2.1 (".xyz") (by decide)⟩

theorem charsLe_total : ∀ x y : List Char, charsLe x y = true ∨ charsLe y x = true := by
  intro x
  induction x with
  | nil => intro y; exact Or.inl rfl
  | cons a as ih =>
    intro y
    cases y with
    | nil => exact Or.inr rfl
    | cons b bs =>
      rcases lt_trichotomy a b with h | h | h
      · left; simp [charsLe, h]
      · subst h
        rcases ih bs with h' | h'
        · left; simp [charsLe, lt_self_iff_false, h']
        · right; simp [charsLe, lt_self_iff_false, h']
      · right; simp [charsLe, h]

theorem charsLe_trans :
    ∀ x y z : List Char, charsLe x y = true → charsLe y z = true → charsLe x z = true := by
  intro x
  induction x with
  | nil => intro y z _ _; rfl
  | cons a as ih =>
    intro y z hxy hyz
    cases y with
    | nil => simp [charsLe] at hxy
    | cons b bs =>
      cases z with
      | nil => simp [charsLe] at hyz
      | cons c cs =>
        by_cases hab : a < b
        · by_cases hbc : b < c
          · simp [charsLe, lt_trans hab hbc]
          · by_cases hcb : c < b
            · simp [charsLe, hbc, hcb] at hyz
            · have hbc' : b = c := le_antisymm (le_of_not_lt hcb) (le_of_not_lt hbc)
              subst hbc'
              simp [charsLe, hab]
        · by_cases hba : b < a
          · simp [charsLe, hab, hba] at hxy
          · have hab' : a = b := le_antisymm (le_of_not_lt hba) (le_of_not_lt hab)
            subst hab'
            by_cases hac : a < c
            · simp [charsLe, hac]
            · by_cases hca : c < a
              · simp [charsLe, hac, hca] at hyz
              · simp [charsLe, hab, hac, hca] at hxy hyz ⊢
                exact ih bs cs hxy hyz

theorem charsLe_antisymm :
    ∀ x y : List Char, charsLe x y = true → charsLe y x = true → x = y := by
  intro x
  induction x with
  | nil =>
    intro y h1 h2
    cases y with
    | nil => rfl
    | cons b bs => simp [charsLe] at h2
  | cons a as ih =>
    intro y h1 h2
    cases y with
    | nil => simp [charsLe] at h1
    | cons b bs =>
      by_cases hab : a < b
      · simp [charsLe, hab, lt_asymm hab] at h2
      · by_cases hba : b < a
        · simp [charsLe, hab, hba] at h1
        · have : a = b := le_antisymm (le_of_not_lt hba) (le_of_not_lt hab)
          subst this
          simp [charsLe, lt_self_iff_false] at h1 h2
          rw [ih bs h1 h2]

theorem insertSortedB_perm {α : Type} (le : α → α → Bool) (a : α) :
    ∀ l : List α, (insertSortedB le a l).Perm (a :: l) := by
  intro l
  induction l with
  | nil => simp [insertSortedB]
  | cons b t ih =>
    rw [insertSortedB]
    by_cases h : le a b
    · simp [h]
    · simp only [h, if_neg, Bool.not_eq_true, not_false_iff]
      exact (ih.cons b).trans (List.Perm.swap a b t)

theorem sortB_perm {α : Type} (le : α → α → Bool) : ∀ l : List α, (sortB le l).Perm l := by
  intro l
  induction l with
  | nil => simp [sortB]
  | cons a t ih => exact (insertSortedB_perm le a (sortB le t)).trans (ih.cons a)

theorem insertSortedB_sorted {α : Type} (le : α → α → Bool)
    (htot : ∀ x y, le x y = true ∨ le y x = true)
    (htrans : ∀ x y z, le x y = true → le y z = true → le x z = true)
    (a : α) (l : List α) (hs : l.Pairwise (fun x y => le x y = true)) :
    (insertSortedB le a l).Pairwise (fun x y => le x y = true) := by
  induction l with
  | nil => simp [insertSortedB]
  | cons b t ih =>
    rcases List.pairwise_cons.mp hs with ⟨hb, ht⟩
    rw [insertSortedB]
    by_cases h : le a b = true
    · rw [if_pos h]
      refine List.pairwise_cons.mpr ⟨?_, hs⟩
      intro x hx
      rcases List.mem_cons.mp hx with rfl | hx'
      · exact h
      · exact htrans a b x h (hb x hx')
    · rw [if_neg h]
      have hba : le b a = true := (htot a b).resolve_left h
      refine List.pairwise_cons.mpr ⟨?_, ih ht⟩
      intro x hx
      have hmem := (insertSortedB_perm le a t).mem_iff.mp hx
      rcases List.mem_cons.mp hmem with rfl | hx'
      · exact hba
      · exact hb x hx'

theorem sortB_sorted {α : Type} (le : α → α → Bool)
    (htot : ∀ x y, le x y = true ∨ le y x = true)
    (htrans : ∀ x y z, le x y = true → le y z = true → le x z = true) :
    ∀ l : List α, (sortB le l).Pairwise (fun x y => le x y = true) := by
  intro l
  induction l with
  | nil => simp [sortB]
  | cons a t ih => exact insertSortedB_sorted le htot htrans a (sortB le t) ih

theorem fcLeB_total (x y : FileCitations) : fcLeB x y = true ∨ fcLeB y x = true :=
  charsLe_total _ _

theorem fcLeB_trans (x y z : FileCitations) (h1 : fcLeB x y = true) (h2 : fcLeB y z = true) :
    fcLeB x z = true :=
  charsLe_trans _ _ _ h1 h2

theorem fcLeB_path_eq (x y : FileCitations) (h1 : fcLeB x y = true) (h2 : fcLeB y x = true) :
    x.filePath = y.filePath := by
  have hd := charsLe_antisymm _ _ h1 h2
  have : String.mk x.filePath.data = String.mk y.filePath.data := congrArg String.mk hd
  simpa using this

theorem sortB_eq_of_perm_nodup (l₁ l₂ : List FileCitations) (hperm : l₁.Perm l₂)
    (hnd : (l₁.map FileCitations.filePath).Nodup) :
    sortB fcLeB l₁ = sortB fcLeB l₂ := by
  have hs₁ := sortB_sorted fcLeB fcLeB_total fcLeB_trans l₁
  have hs₂ := sortB_sorted fcLeB fcLeB_total fcLeB_trans l₂
  have hp : (sortB fcLeB l₁).Perm (sortB fcLeB l₂) :=
    (sortB_perm fcLeB l₁).trans (hperm.trans (sortB_perm fcLeB l₂).symm)
  have hnd₂ : (l₂.map FileCitations.filePath).Nodup :=
    ((hperm.map FileCitations.filePath).nodup_iff).mp hnd
  have hnds₁ : ((sortB fcLeB l₁).map FileCitations.filePath).Nodup :=
    (((sortB_perm fcLeB l₁).map FileCitations.filePath).nodup_iff).mpr hnd
  have hnds₂ : ((sortB fcLeB l₂).map FileCitations.filePath).Nodup :=
    (((sortB_perm fcLeB l₂).map FileCitations.filePath).nodup_iff).mpr hnd₂
  have hne₁ : (sortB fcLeB l₁).Pairwise (fun x y => x.filePath ≠ y.filePath) :=
    List.pairwise_map.mp hnds₁
  have hne₂ : (sortB fcLeB l₂).Pairwise (fun x y => x.filePath ≠ y.filePath) :=
    List.pairwise_map.mp hnds₂
  haveI : IsAntisymm FileCitations (fun x y => fcLeB x y = true ∧ x.filePath ≠ y.filePath) :=
    ⟨by
      rintro a b ⟨h1, hne⟩ ⟨h2, -⟩
      exact absurd (fcLeB_path_eq a b h1 h2) hne⟩
  exact List.eq_of_perm_of_sorted hp (hs₁.and hne₁) (hs₂.and hne₂)

theorem filterMap_keys_sublist {α β : Type} (f : α → Option β) (key : β → String)
    (pk : α → String) (hf : ∀ a b, f a = some b → key b = pk a) :
    ∀ l : List α, List.Sublist ((l.filterMap f).map key) (l.map pk) := by
  intro l
  induction l with
  | nil => simp
  | cons x t ih =>
    rw [List.filterMap_cons]
    cases hx : f x with
    | none => simpa using ih.cons (pk x)
    | some b =>
      simp only [List.map_cons]
      rw [hf x b hx]
      exact ih.cons₂ (pk x)

theorem scanEntries_path (pc : String × Option String) (exts : List String)
    (fc : FileCitations)
    (h : (fun pc : String × Option String =>
      match pc.2 with
      | none => none
      | some content =>
        if eligible exts pc.1 then
          let rs := (extractFromString content (syntaxFor (extOf pc.1))).map
            (fun r => { r with filePath := pc.1 })
          if rs.isEmpty then none else some { filePath := pc.1, records := rs }
        else none) pc = some fc) : fc.filePath = pc.1 := by
  rcases pc with ⟨p, c⟩
  cases c with
  | none => simp at h
  | some content =>
    simp only [] at h
    by_cases h1 : eligible exts p = true
    · simp only [h1, if_true] at h
      by_cases h2 : ((extractFromString content (syntaxFor (extOf p))).map
          (fun r => { r with filePath := p })).isEmpty = true
      · simp [h2] at h
      · simp only [h2, if_false, Bool.false_eq_true, if_neg, not_false_iff,
          Option.some.injEq] at h
        rw [← h]
    · simp [h1] at h

/-- C2: the scan aggregate is sorted by file path, is independent of the
filesystem traversal order, and rendering it twice (over two traversals of
the unchanged directory) yields byte-identical output in every format. -/
theorem citations_C2 (fs₁ fs₂ : List (String × Option String)) (exts : List String)
    (hperm : fs₁.Perm fs₂) (hnd : (fs₁.map Prod.fst).Nodup) :
    extractFromDirectory fs₁ exts = extractFromDirectory fs₂ exts ∧
    (extractFromDirectory fs₁ exts).files.Pairwise fcLe ∧
    (∀ fmt, render (extractFromDirectory fs₁ exts) fmt =
      render (extractFromDirectory fs₂ exts) fmt) := by
  have hentperm : (scanEntries fs₁ exts).Perm (scanEntries fs₂ exts) := hperm.filterMap _
  have hsub := filterMap_keys_sublist _ FileCitations.filePath Prod.fst
    (fun a b hab => scanEntries_path a exts b hab) fs₁
  have hkeys : ((scanEntries fs₁ exts).map FileCitations.filePath).Nodup :=
    hnd.sublist hsub
  have heq : sortB fcLeB (scanEntries fs₁ exts) = sortB fcLeB (scanEntries fs₂ exts) :=
    sortB_eq_of_perm_nodup _ _ hentperm hkeys
  refine ⟨?_, ?_, ?_⟩
  · rw [extractFromDirectory, extractFromDirectory, heq]
  · exact sortB_sorted fcLeB fcLeB_total fcLeB_trans (scanEntries fs₁ exts)
  · intro fmt
    rw [extractFromDirectory, extractFromDirectory, heq]

/-- Witness for C2: two traversal orders of the same two-file directory give
the same sorted, identically rendered result. -/
theorem citations_C2_witness :
    (([(("b.py" : String), some ("# [CITATION] Source: u")), (("a.py" : String), some ("x"))] :
        List (String × Option String)).Perm
      [(("a.py" : String), some ("x")), (("b.py" : String), some ("# [CITATION] Source: u"))]) ∧
    (([(("b.py" : String), some ("# [CITATION] Source: u")), (("a.py" : String), some ("x"))] :
        List (String × Option String)).map Prod.fst).Nodup ∧
    (extractFromDirectory
        [(("b.py" : String), some ("# [CITATION] Source: u")), (("a.py" : String), some ("x"))]
        [] =
      extractFromDirectory
        [(("a.py" : String), some ("x")), (("b.py" : String), some ("# [CITATION] Source: u"))]
        [] ∧
     (extractFromDirectory
        [(("b.py" : String), some ("# [CITATION] Source: u")), (("a.py" : String), some ("x"))]
        []).files.Pairwise fcLe ∧
     (∀ fmt, render (extractFromDirectory
        [(("b.py" : String), some ("# [CITATION] Source: u")), (("a.py" : String), some ("x"))]
        []) fmt =
       render (extractFromDirectory
        [(("a.py" : String), some ("x")), (("b.py" : String), some ("# [CITATION] Source: u"))]
        []) fmt)) :=
  ⟨by decide, by decide,
   citations_C2
     [(("b.py" : String), some ("# [CITATION] Source: u")), (("a.py" : String), some ("x"))]
     [(("a.py" : String), some ("x")), (("b.py" : String), some ("# [CITATION] Source: u"))]
     [] (by decide) (by decide)⟩

theorem htmlEscapeChar_no_structural (c x : Char) (h : x ∈ htmlEscapeChar c) :
    x ≠ '<' ∧ x ≠ '>' ∧ x ≠ '"' := by
  rw [htmlEscapeChar] at h
  split_ifs at h with h1 h2 h3 h4
  · fin_cases h <;> decide
  · fin_cases h <;> decide
  · fin_cases h <;> decide
  · fin_cases h <;> decide
  · rw [List.mem_singleton] at h
    subst h
    exact ⟨h2, h3, h4⟩

theorem htmlEscapeL_no_structural (s : String) (x : Char) (h : x ∈ htmlEscapeL s) :
    x ≠ '<' ∧ x ≠ '>' ∧ x ≠ '"' := by
  rw [htmlEscapeL] at h
  rcases List.mem_flatMap.mp h with ⟨c, -, hc⟩
  exact htmlEscapeChar_no_structural c x hc

theorem htmlEscapeL_count_lt (s : String) : (htmlEscapeL s).count '<' = 0 :=
  List.count_eq_zero.mpr (fun h => (htmlEscapeL_no_structural s '<' h).1 rfl)

theorem count_flatten_map {β : Type} (c : Char) (f : β → List Char) (l : List β) :
    ((l.map f).flatten).count c = (l.map (fun x => (f x).count c)).sum := by
  rw [List.count_flatten, List.map_map]
  rfl

theorem htmlRecordL_count (r : CitationRecord) : (htmlRecordL r).count '<' = 2 := by
  have k1 : ((("<li>Source: ").data).count '<') = 1 := by decide
  have k2 : (((" Author: ").data).count '<') = 0 := by decide
  have k3 : (((" Date: ").data).count '<') = 0 := by decide
  have k4 : (((" Description: ").data).count '<') = 0 := by decide
  have k5 : ((("</li>").data).count '<') = 1 := by decide
  simp [htmlRecordL, List.count_append, htmlEscapeL_count_lt, k1, k2, k3, k4, k5]

theorem htmlFileL_count (fc : FileCitations) :
    (htmlFileL fc).count '<' = 6 + 2 * fc.records.length := by
  have k1 : ((("<section><h2>").data).count '<') = 2 := by decide
  have k2 : ((("</h2><ul>").data).count '<') = 2 := by decide
  have k3 : ((("</ul></section>").data).count '<') = 2 := by decide
  simp [htmlFileL, List.count_append, htmlEscapeL_count_lt, k1, k2, k3, count_flatten_map,
    htmlRecordL_count, List.map_const']
  omega

theorem htmlDoc_count (sr : ScanResult) : (htmlDoc sr).count '<' = htmlShapeCount sr := by
  have k1 : ((("<html><head><title>Citations</title></head><body><h1>Citations</h1>").data).count
    '<') = 8 := by decide
  have k2 : ((("</body></html>").data).count '<') = 2 := by decide
  have k3 : ((("<p>No citations found</p>").data).count '<') = 2 := by decide
  rw [htmlDoc, htmlShapeCount]
  cases he : sr.files.isEmpty with
  | true =>
    rw [if_pos rfl, if_pos rfl, List.count_append, List.count_append, k1, k2, k3]
  | false =>
    rw [if_neg Bool.false_ne_true, if_neg Bool.false_ne_true,
      List.count_append, List.count_append, k1, k2, count_flatten_map]
    simp only [htmlFileL_count]
    omega

theorem JStrBody_append {a b : List Char} (ha : JStrBody a) (hb : JStrBody b) :
    JStrBody (a ++ b) := by
  induction ha with
  | nil => exact hb
  | plain c s h1 h2 h3 _ ih => exact .plain c _ h1 h2 h3 ih
  | esc c s hc _ ih => exact .esc c _ hc ih
  | hex x y z w s q1 q2 q3 q4 _ ih => exact .hex x y z w _ q1 q2 q3 q4 ih

theorem hexDigitChar_mem (n : Nat) (h : n < 16) : hexDigitChar n ∈ hexChars := by
  interval_cases n <;> decide

theorem jsonEscapeChar_body (c : Char) : JStrBody (jsonEscapeChar c) := by
  rw [jsonEscapeChar]
  split_ifs with h1 h2 h3 h4 h5 h6
  · exact .esc '"' [] (by decide) .nil
  · exact .esc '\\' [] (by decide) .nil
  · exact .esc 'n' [] (by decide) .nil
  · exact .esc 'r' [] (by decide) .nil
  · exact .esc 't' [] (by decide) .nil
  · exact .hex '0' '0' (hexDigitChar (c.toNat / 16)) (hexDigitChar (c.toNat % 16)) []
      (by decide) (by decide) (hexDigitChar_mem _ (by omega)) (hexDigitChar_mem _ (by omega))
      .nil
  · exact .plain c [] h1 h2 (by omega) .nil

theorem jStrBodyL_body (s : String) : JStrBody (jStrBodyL s) := by
  rw [jStrBodyL]
  induction s.data with
  | nil => exact .nil
  | cons c t ih =>
    rw [List.flatMap_cons]
    exact JStrBody_append (jsonEscapeChar_body c) ih

theorem jStrL_val (s : String) : JVal (jStrL s) := .str _ (jStrBodyL_body s)

theorem natDigits_ne_nil (n : Nat) : natDigits n ≠ [] := by
  rw [natDigits]
  split_ifs
  · simp
  · simp

theorem digitChar_isDigit (d : Nat) (h : d < 10) : (Nat.digitChar d).isDigit = true := by
  interval_cases d <;> decide

theorem natDigits_digits (n : Nat) : ∀ c ∈ natDigits n, c.isDigit = true := by
  induction n using Nat.strong_induction_on with
  | _ n ih =>
    intro c hc
    rw [natDigits] at hc
    split_ifs at hc with h
    · rw [List.mem_singleton] at hc
      subst hc
      exact digitChar_isDigit n h
    · rcases List.mem_append.mp hc with h' | h'
      · exact ih (n / 10) (by omega) c h'
      · rw [List.mem_singleton] at h'
        subst h'
        exact digitChar_isDigit _ (by omega)

theorem natDigits_val (n : Nat) : JVal (natDigits n) :=
  .num _ (natDigits_ne_nil n) (natDigits_digits n)

theorem JStrBody_of_plain : ∀ l : List Char,
    (∀ c ∈ l, c ≠ '"' ∧ c ≠ '\\' ∧ 32 ≤ c.toNat) → JStrBody l := by
  intro l
  induction l with
  | nil => intro _; exact .nil
  | cons c t ih =>
    intro h
    obtain ⟨h1, h2, h3⟩ := h c (by simp)
    exact .plain c t h1 h2 h3 (ih (fun x hx => h x (by simp [hx])))

theorem jMembers_cat : ∀ ms : List (String × List Char), ms ≠ [] →
    (∀ kv ∈ ms, (∀ c ∈ kv.1.data, c ≠ '"' ∧ c ≠ '\\' ∧ 32 ≤ c.toNat) ∧ JVal kv.2) →
    JMembers (jMembersCatL (ms.map (fun kv => jMemberL kv.1 kv.2))) := by
  intro ms
  induction ms with
  | nil => intro h _; exact absurd rfl h
  | cons kv t ih =>
    intro _ hall
    obtain ⟨hk, hv⟩ := hall kv (by simp)
    cases t with
    | nil => exact JMembers.one _ _ (JStrBody_of_plain _ hk) hv
    | cons kv2 t2 =>
      have he : jMembersCatL ((kv :: kv2 :: t2).map (fun kv => jMemberL kv.1 kv.2)) =
          jMemberL kv.1 kv.2 ++
            ',' :: jMembersCatL ((kv2 :: t2).map (fun kv => jMemberL kv.1 kv.2)) := rfl
      rw [he]
      exact JMembers.cons _ _ _ (JStrBody_of_plain _ hk) hv
        (ih (by simp) (fun x hx => hall x (by simp [hx])))

theorem jObjL_val (ms : List (String × List Char)) (hne : ms ≠ [])
    (hall : ∀ kv ∈ ms, (∀ c ∈ kv.1.data, c ≠ '"' ∧ c ≠ '\\' ∧ 32 ≤ c.toNat) ∧ JVal kv.2) :
    JVal (jObjL (ms.map (fun kv => jMemberL kv.1 kv.2))) :=
  .obj _ (jMembers_cat ms hne hall)

theorem jElems_cat : ∀ vs : List (List Char), vs ≠ [] → (∀ v ∈ vs, JVal v) →
    JElems (jElemsCatL vs) := by
  intro vs
  induction vs with
  | nil => intro h _; exact absurd rfl h
  | cons v t ih =>
    intro _ hall
    cases t with
    | nil => exact JElems.one v (hall v (by simp))
    | cons v2 t2 =>
      have he : jElemsCatL (v :: v2 :: t2) = v ++ ',' :: jElemsCatL (v2 :: t2) := rfl
      rw [he]
      exact JElems.cons _ _ (hall v (by simp)) (ih (by simp) (fun x hx => hall x (by simp [hx])))

theorem jArrL_val (vs : List (List Char)) (hall : ∀ v ∈ vs, JVal v) : JVal (jArrL vs) := by
  cases vs with
  | nil => exact .arrNil
  | cons v t => exact .arr _ (jElems_cat (v :: t) (by simp) hall)

theorem jsonRecordL_val (r : CitationRecord) : JVal (jsonRecordL r) := by
  have h := jObjL_val
    [(("source"), jStrL r.sourceUrl), (("author"), jStrL r.author), (("date"), jStrL r.date),
     (("description"), jStrL r.description), (("line"), natDigits r.lineNumber)]
    (by simp)
    (by
      intro kv hkv
      fin_cases hkv
      · exact ⟨(by decide : ∀ c ∈ (("source") : String).data, c ≠ '"' ∧ c ≠ '\\' ∧ 32 ≤ c.toNat), jStrL_val r.sourceUrl⟩
      · exact ⟨(by decide : ∀ c ∈ (("author") : String).data, c ≠ '"' ∧ c ≠ '\\' ∧ 32 ≤ c.toNat), jStrL_val r.author⟩
      · exact ⟨(by decide : ∀ c ∈ (("date") : String).data, c ≠ '"' ∧ c ≠ '\\' ∧ 32 ≤ c.toNat), jStrL_val r.date⟩
      · exact ⟨(by decide : ∀ c ∈ (("description") : String).data, c ≠ '"' ∧ c ≠ '\\' ∧ 32 ≤ c.toNat), jStrL_val r.description⟩
      · exact ⟨(by decide : ∀ c ∈ (("line") : String).data, c ≠ '"' ∧ c ≠ '\\' ∧ 32 ≤ c.toNat), natDigits_val r.lineNumber⟩)
  exact h

theorem jsonFileL_val (fc : FileCitations) : JVal (jsonFileL fc) := by
  have h := jObjL_val
    [(("file"), jStrL fc.filePath), (("citations"), jArrL (fc.records.map jsonRecordL))]
    (by simp)
    (by
      intro kv hkv
      fin_cases hkv
      · exact ⟨(by decide : ∀ c ∈ (("file") : String).data, c ≠ '"' ∧ c ≠ '\\' ∧ 32 ≤ c.toNat), jStrL_val fc.filePath⟩
      · refine ⟨(by decide : ∀ c ∈ (("citations") : String).data, c ≠ '"' ∧ c ≠ '\\' ∧ 32 ≤ c.toNat), jArrL_val _ ?_⟩
        intro v hv
        rcases List.mem_map.mp hv with ⟨r, -, rfl⟩
        exact jsonRecordL_val r)
  exact h

theorem jsonDocL_val (sr : ScanResult) : JVal (jsonDocL sr) := by
  have h := jObjL_val [(("files"), jArrL (sr.files.map jsonFileL))]
    (by simp)
    (by
      intro kv hkv
      fin_cases hkv
      refine ⟨(by decide : ∀ c ∈ (("files") : String).data, c ≠ '"' ∧ c ≠ '\\' ∧ 32 ≤ c.toNat), jArrL_val _ ?_⟩
      intro v hv
      rcases List.mem_map.mp hv with ⟨fc, -, rfl⟩
      exact jsonFileL_val fc)
  exact h

/-- C3: the HTML backend entity-escapes every field value, so escaped text
never contains the structural characters and the number of `<` characters of
the rendered HTML document depends only on the shape of the scan result,
never on field contents; and the JSON backend output lies in the JSON
grammar for every scan result. -/
theorem citations_C3 :
    (∀ (s : String) (x : Char), x ∈ htmlEscapeL s → x ≠ '<' ∧ x ≠ '>' ∧ x ≠ '"') ∧
    (∀ sr : ScanResult, countChar '<' (renderHTML sr) = htmlShapeCount sr) ∧
    (∀ sr : ScanResult, JVal ((renderJSON sr).data)) := by
  refine ⟨?_, ?_, ?_⟩
  · intro s x h
    exact htmlEscapeL_no_structural s x h
  · intro sr
    exact htmlDoc_count sr
  · intro sr
    exact jsonDocL_val sr

/-- Witness for C3: a concrete escaped character is not structural, and the
concrete renderings satisfy the count and grammar statements. -/
theorem citations_C3_witness :
    ('a' ∈ htmlEscapeL ("a<b")) ∧
    ('a' ≠ '<' ∧ 'a' ≠ '>' ∧ 'a' ≠ '"') ∧
    countChar '<' (renderHTML ⟨[]⟩) = htmlShapeCount ⟨[]⟩ ∧
    JVal ((renderJSON ⟨[]⟩).data) :=
  ⟨by decide, citations_C3.1 ("a<b") 'a' (by decide),
   citations_C3.2.1 ⟨[]⟩, citations_C3.2.2 ⟨[]⟩⟩

theorem surfaceExtract_no_exec_open (res : ProcResult) (s : String) :
    UiEvent.execCmd s ∉ surfaceExtract res ∧ UiEvent.openDoc s ∉ surfaceExtract res := by
  cases h : res.procError with
  | none => by_cases hs : res.stderr = "" <;> simp [surfaceExtract, h, hs]
  | some m => simp [surfaceExtract, h]

theorem surfaceGenerate_no_exec (out : String) (res : ProcResult) (s : String) :
    UiEvent.execCmd s ∉ surfaceGenerate out res := by
  cases h : res.procError with
  | none => by_cases hs : res.stderr = "" <;> simp [surfaceGenerate, h, hs]
  | some m => simp [surfaceGenerate, h]

theorem extractCitationsHandler_run (env : VsEnv) (w : String) (rest : List String)
    (hw : env.workspaceFolders = some (w :: rest))
    (hf : env.fileExists (scriptPathOf w) = true) :
    extractCitationsHandler env =
      some ([.infoMsg ("Extracting Copilot citations..."), .execCmd (extractCmdOf w)] ++
        surfaceExtract (env.runProc (extractCmdOf w))) := by
  simp [extractCitationsHandler, hw, hf]

theorem generateDocumentationHandler_run (env : VsEnv) (w : String) (rest : List String)
    (hw : env.workspaceFolders = some (w :: rest))
    (hf : env.fileExists (scriptPathOf w) = true) :
    generateDocumentationHandler env =
      some ([.infoMsg ("Generating Copilot citations documentation..."),
             .execCmd (generateCmdOf w)] ++
        surfaceGenerate (docOutPathOf w) (env.runProc (generateCmdOf w))) := by
  simp [generateDocumentationHandler, hw, hf]

theorem extractCitationsHandler_noscript (env : VsEnv) (w : String) (rest : List String)
    (hw : env.workspaceFolders = some (w :: rest))
    (hf : env.fileExists (scriptPathOf w) = false) :
    extractCitationsHandler env =
      some [.infoMsg ("Extracting Copilot citations..."),
            .errorMsg (("Python script not found: ") ++ scriptPathOf w)] := by
  simp [extractCitationsHandler, hw, hf]

theorem generateDocumentationHandler_noscript (env : VsEnv) (w : String) (rest : List String)
    (hw : env.workspaceFolders = some (w :: rest))
    (hf : env.fileExists (scriptPathOf w) = false) :
    generateDocumentationHandler env =
      some [.infoMsg ("Generating Copilot citations documentation..."),
            .errorMsg (("Python script not found: ") ++ scriptPathOf w)] := by
  simp [generateDocumentationHandler, hw, hf]

/-- C8: the two command handlers depend only on the workspace folders, the
script-existence check, and the subprocess oracle (never on file contents,
so they carry no citation parsing of their own); every subprocess they spawn
is the engine entry-point command; and over a workspace with the script
present they reduce to invoking that command and surfacing its result. -/
theorem citations_C8 :
    (∀ env₁ env₂ : VsEnv, env₁.workspaceFolders = env₂.workspaceFolders →
      env₁.fileExists = env₂.fileExists → env₁.runProc = env₂.runProc →
      extractCitationsHandler env₁ = extractCitationsHandler env₂ ∧
      generateDocumentationHandler env₁ = generateDocumentationHandler env₂) ∧
    (∀ (env : VsEnv) (evs : List UiEvent) (s : String),
      extractCitationsHandler env = some evs → UiEvent.execCmd s ∈ evs →
      ∃ w rest, env.workspaceFolders = some (w :: rest) ∧ s = extractCmdOf w) ∧
    (∀ (env : VsEnv) (evs : List UiEvent) (s : String),
      generateDocumentationHandler env = some evs → UiEvent.execCmd s ∈ evs →
      ∃ w rest, env.workspaceFolders = some (w :: rest) ∧ s = generateCmdOf w) ∧
    (∀ (env : VsEnv) (w : String) (rest : List String),
      env.workspaceFolders = some (w :: rest) → env.fileExists (scriptPathOf w) = true →
      extractCitationsHandler env =
        some ([.infoMsg ("Extracting Copilot citations..."), .execCmd (extractCmdOf w)] ++
          surfaceExtract (env.runProc (extractCmdOf w))) ∧
      generateDocumentationHandler env =
        some ([.infoMsg ("Generating Copilot citations documentation..."),
               .execCmd (generateCmdOf w)] ++
          surfaceGenerate (docOutPathOf w) (env.runProc (generateCmdOf w)))) := by
  refine ⟨?_, ?_, ?_, ?_⟩
  · rintro ⟨w1, f1, r1, c1⟩ ⟨w2, f2, r2, c2⟩ h1 h2 h3
    simp only [] at h1 h2 h3
    subst h1
    subst h2
    subst h3
    exact ⟨rfl, rfl⟩
  · intro env evs s hh hm
    cases hw : env.workspaceFolders with
    | none =>
      rw [extractCitationsHandler, hw] at hh
      simp only [Option.some.injEq] at hh
      subst hh
      simp at hm
    | some l =>
      cases l with
      | nil =>
        rw [extractCitationsHandler, hw] at hh
        simp at hh
      | cons w rest =>
        by_cases hf : env.fileExists (scriptPathOf w) = true
        · rw [extractCitationsHandler_run env w rest hw hf] at hh
          simp only [Option.some.injEq] at hh
          subst hh
          rcases List.mem_append.mp hm with hm' | hm'
          · simp only [List.mem_cons, List.mem_singleton] at hm'
            rcases hm' with h | h | h
            · exact absurd h (by simp)
            · refine ⟨w, rest, rfl, ?_⟩
              simpa using h
            · simp at h
          · exact absurd hm' ((surfaceExtract_no_exec_open _ s).1)
        · rw [extractCitationsHandler_noscript env w rest hw
            (Bool.not_eq_true _ ▸ hf : env.fileExists (scriptPathOf w) = false)] at hh
          simp only [Option.some.injEq] at hh
          subst hh
          simp at hm
  · intro env evs s hh hm
    cases hw : env.workspaceFolders with
    | none =>
      rw [generateDocumentationHandler, hw] at hh
      simp only [Option.some.injEq] at hh
      subst hh
      simp at hm
    | some l =>
      cases l with
      | nil =>
        rw [generateDocumentationHandler, hw] at hh
        simp at hh
      | cons w rest =>
        by_cases hf : env.fileExists (scriptPathOf w) = true
        · rw [generateDocumentationHandler_run env w rest hw hf] at hh
          simp only [Option.some.injEq] at hh
          subst hh
          rcases List.mem_append.mp hm with hm' | hm'
          · simp only [List.mem_cons, List.mem_singleton] at hm'
            rcases hm' with h | h | h
            · exact absurd h (by simp)
            · refine ⟨w, rest, rfl, ?_⟩
              simpa using h
            · simp at h
          · exact absurd hm' (surfaceGenerate_no_exec _ _ s)
        · rw [generateDocumentationHandler_noscript env w rest hw
            (Bool.not_eq_true _ ▸ hf : env.fileExists (scriptPathOf w) = false)] at hh
          simp only [Option.some.injEq] at hh
          subst hh
          simp at hm
  · intro env w rest hw hf
    exact ⟨extractCitationsHandler_run env w rest hw hf,
           generateDocumentationHandler_run env w rest hw hf⟩

/-- Witness for C8: over a concrete environment with one workspace folder and
an existing script, both handlers invoke the entry-point command and surface
its result. -/
theorem citations_C8_witness :
    ((⟨some [("/ws")], fun _ => true, fun _ => ⟨none, "ok", ""⟩, fun _ => ""⟩ :
        VsEnv).workspaceFolders = some (("/ws") :: [])) ∧
    ((⟨some [("/ws")], fun _ => true, fun _ => ⟨none, "ok", ""⟩, fun _ => ""⟩ :
        VsEnv).fileExists (scriptPathOf ("/ws")) = true) ∧
    (extractCitationsHandler
        (⟨some [("/ws")], fun _ => true, fun _ => ⟨none, "ok", ""⟩, fun _ => ""⟩ : VsEnv) =
      some ([.infoMsg ("Extracting Copilot citations..."), .execCmd (extractCmdOf ("/ws"))] ++
        surfaceExtract ((⟨some [("/ws")], fun _ => true, fun _ => ⟨none, "ok", ""⟩,
          fun _ => ""⟩ : VsEnv).runProc (extractCmdOf ("/ws")))) ∧
     generateDocumentationHandler
        (⟨some [("/ws")], fun _ => true, fun _ => ⟨none, "ok", ""⟩, fun _ => ""⟩ : VsEnv) =
      some ([.infoMsg ("Generating Copilot citations documentation..."),
             .execCmd (generateCmdOf ("/ws"))] ++
        surfaceGenerate (docOutPathOf ("/ws"))
          ((⟨some [("/ws")], fun _ => true, fun _ => ⟨none, "ok", ""⟩,
            fun _ => ""⟩ : VsEnv).runProc (generateCmdOf ("/ws"))))) :=
  ⟨rfl, rfl,
   citations_C8.2.2.2
     (⟨some [("/ws")], fun _ => true, fun _ => ⟨none, "ok", ""⟩, fun _ => ""⟩ : VsEnv)
     ("/ws") [] rfl rfl⟩

/-- C9: with no workspace folder open, or with the Python script missing,
each command shows an error message and produces no subprocess invocation and
no document-opening effect. -/
theorem citations_C9 :
    (∀ env : VsEnv, env.workspaceFolders = none →
      extractCitationsHandler env = some [.errorMsg ("No workspace folder is open")] ∧
      generateDocumentationHandler env = some [.errorMsg ("No workspace folder is open")]) ∧
    (∀ (env : VsEnv) (w : String) (rest : List String),
      env.workspaceFolders = some (w :: rest) → env.fileExists (scriptPathOf w) = false →
      extractCitationsHandler env =
        some [.infoMsg ("Extracting Copilot citations..."),
              .errorMsg (("Python script not found: ") ++ scriptPathOf w)] ∧
      generateDocumentationHandler env =
        some [.infoMsg ("Generating Copilot citations documentation..."),
              .errorMsg (("Python script not found: ") ++ scriptPathOf w)]) ∧
    (∀ (env : VsEnv) (evs : List UiEvent) (s : String),
      (env.workspaceFolders = none ∨
        (∃ w rest, env.workspaceFolders = some (w :: rest) ∧
          env.fileExists (scriptPathOf w) = false)) →
      (extractCitationsHandler env = some evs ∨
        generateDocumentationHandler env = some evs) →
      UiEvent.execCmd s ∉ evs ∧ UiEvent.openDoc s ∉ evs) := by
  have hnone : ∀ env : VsEnv, env.workspaceFolders = none →
      extractCitationsHandler env = some [.errorMsg ("No workspace folder is open")] ∧
      generateDocumentationHandler env = some [.errorMsg ("No workspace folder is open")] := by
    intro env h
    constructor
    · simp [extractCitationsHandler, h]
    · simp [generateDocumentationHandler, h]
  have hmiss : ∀ (env : VsEnv) (w : String) (rest : List String),
      env.workspaceFolders = some (w :: rest) → env.fileExists (scriptPathOf w) = false →
      extractCitationsHandler env =
        some [.infoMsg ("Extracting Copilot citations..."),
              .errorMsg (("Python script not found: ") ++ scriptPathOf w)] ∧
      generateDocumentationHandler env =
        some [.infoMsg ("Generating Copilot citations documentation..."),
              .errorMsg (("Python script not found: ") ++ scriptPathOf w)] := by
    intro env w rest hw hf
    exact ⟨extractCitationsHandler_noscript env w rest hw hf,
           generateDocumentationHandler_noscript env w rest hw hf⟩
  refine ⟨hnone, hmiss, ?_⟩
  intro env evs s hpre hh
  rcases hpre with hn | ⟨w, rest, hw, hf⟩
  · obtain ⟨he, hg⟩ := hnone env hn
    rcases hh with hh | hh
    · rw [he, Option.some.injEq] at hh
      subst hh
      constructor <;> simp
    · rw [hg, Option.some.injEq] at hh
      subst hh
      constructor <;> simp
  · obtain ⟨he, hg⟩ := hmiss env w rest hw hf
    rcases hh with hh | hh
    · rw [he, Option.some.injEq] at hh
      subst hh
      constructor <;> simp
    · rw [hg, Option.some.injEq] at hh
      subst hh
      constructor <;> simp

/-- Witness for C9: a concrete environment with no workspace folder gets
exactly the error message from both commands. -/
theorem citations_C9_witness :
    ((⟨none, fun _ => true, fun _ => ⟨none, "", ""⟩, fun _ => ""⟩ :
        VsEnv).workspaceFolders = none) ∧
    (extractCitationsHandler
        (⟨none, fun _ => true, fun _ => ⟨none, "", ""⟩, fun _ => ""⟩ : VsEnv) =
      some [.errorMsg ("No workspace folder is open")] ∧
     generateDocumentationHandler
        (⟨none, fun _ => true, fun _ => ⟨none, "", ""⟩, fun _ => ""⟩ : VsEnv) =
      some [.errorMsg ("No workspace folder is open")]) :=
  ⟨rfl, citations_C9.1
    (⟨none, fun _ => true, fun _ => ⟨none, "", ""⟩, fun _ => ""⟩ : VsEnv) rfl⟩

/-- C10: the generateDocumentation command scans the first workspace folder,
passes the fixed output path `<workspace>/Documentation/citations.md` with no
format flag (the full command string is exactly the `-d`/`-o` invocation),
and opens that fixed file exactly when the subprocess succeeds. -/
theorem citations_C10 (env : VsEnv) (w : String) (rest : List String)
    (hw : env.workspaceFolders = some (w :: rest))
    (hf : env.fileExists (scriptPathOf w) = true) :
    scriptPathOf w = w ++ ("/src/__main__.py") ∧
    docOutPathOf w = w ++ ("/Documentation/citations.md") ∧
    generateCmdOf w = ("python \"") ++ scriptPathOf w ++ ("\" -d \"") ++ w ++ ("\" -o \"") ++
      docOutPathOf w ++ ("\"") ∧
    (∀ (evs : List UiEvent) (s : String), generateDocumentationHandler env = some evs →
      UiEvent.execCmd s ∈ evs → s = generateCmdOf w) ∧
    ((env.runProc (generateCmdOf w)).procError = none →
      ∀ evs, generateDocumentationHandler env = some evs →
        UiEvent.openDoc (docOutPathOf w) ∈ evs) ∧
    (∀ m : String, (env.runProc (generateCmdOf w)).procError = some m →
      ∀ evs, generateDocumentationHandler env = some evs →
        ∀ s, UiEvent.openDoc s ∉ evs) := by
  have hrun := generateDocumentationHandler_run env w rest hw hf
  refine ⟨rfl, rfl, rfl, ?_, ?_, ?_⟩
  · intro evs s hh hm
    rw [hrun, Option.some.injEq] at hh
    subst hh
    rcases List.mem_append.mp hm with hm' | hm'
    · simp only [List.mem_cons, List.mem_singleton] at hm'
      rcases hm' with h | h | h
      · exact absurd h (by simp)
      · simpa using h
      · simp at h
    · exact absurd hm' (surfaceGenerate_no_exec _ _ s)
  · intro hne evs hh
    rw [hrun, Option.some.injEq] at hh
    subst hh
    refine List.mem_append.mpr (Or.inr ?_)
    by_cases hs : (env.runProc (generateCmdOf w)).stderr = "" <;>
      simp [surfaceGenerate, hne, hs]
  · intro m hm evs hh s
    rw [hrun, Option.some.injEq] at hh
    subst hh
    intro hmem
    rcases List.mem_append.mp hmem with h' | h'
    · simp at h'
    · rw [surfaceGenerate, hm] at h'
      simp at h'

/-- Witness for C10: over a concrete successful environment the command is
the fixed `-d`/`-o` invocation and the fixed output file is opened. -/
theorem citations_C10_witness :
    ((⟨some [("/ws")], fun _ => true, fun _ => ⟨none, "", ""⟩, fun _ => ""⟩ :
        VsEnv).workspaceFolders = some (("/ws") :: [])) ∧
    ((⟨some [("/ws")], fun _ => true, fun _ => ⟨none, "", ""⟩, fun _ => ""⟩ :
        VsEnv).fileExists (scriptPathOf ("/ws")) = true) ∧
    (scriptPathOf ("/ws") = ("/ws") ++ ("/src/__main__.py") ∧
     docOutPathOf ("/ws") = ("/ws") ++ ("/Documentation/citations.md") ∧
     generateCmdOf ("/ws") = ("python \"") ++ scriptPathOf ("/ws") ++ ("\" -d \"") ++ ("/ws") ++
       ("\" -o \"") ++ docOutPathOf ("/ws") ++ ("\"") ∧
     (∀ (evs : List UiEvent) (s : String),
       generateDocumentationHandler
           (⟨some [("/ws")], fun _ => true, fun _ => ⟨none, "", ""⟩, fun _ => ""⟩ : VsEnv) =
         some evs →
       UiEvent.execCmd s ∈ evs → s = generateCmdOf ("/ws")) ∧
     (((⟨some [("/ws")], fun _ => true, fun _ => ⟨none, "", ""⟩, fun _ => ""⟩ :
          VsEnv).runProc (generateCmdOf ("/ws"))).procError = none →
       ∀ evs, generateDocumentationHandler
           (⟨some [("/ws")], fun _ => true, fun _ => ⟨none, "", ""⟩, fun _ => ""⟩ : VsEnv) =
         some evs →
       UiEvent.openDoc (docOutPathOf ("/ws")) ∈ evs) ∧
     (∀ m : String,
       ((⟨some [("/ws")], fun _ => true, fun _ => ⟨none, "", ""⟩, fun _ => ""⟩ :
          VsEnv).runProc (generateCmdOf ("/ws"))).procError = some m →
       ∀ evs, generateDocumentationHandler
           (⟨some [("/ws")], fun _ => true, fun _ => ⟨none, "", ""⟩, fun _ => ""⟩ : VsEnv) =
         some evs →
       ∀ s, UiEvent.openDoc s ∉ evs)) :=
  ⟨rfl, rfl,
   citations_C10
     (⟨some [("/ws")], fun _ => true, fun _ => ⟨none, "", ""⟩, fun _ => ""⟩ : VsEnv)
     ("/ws") [] rfl rfl⟩
